import Mathlib

/-!
Verification of the git pre-push squash hook and the post-push cleanup hook.

The development shallowly embeds the two Python scripts
`hooks/pre_push_squash.py` and `hooks/post-push-cleanup.py`.
Strings are modelled as `List Char`; the ASCII fragment of Python's
string/regex primitives is embedded by hand.  Subprocess calls are modelled
by an environment record that fixes, for each call the script makes, whether
it succeeded (and what it printed), failed with a nonzero exit status, or
timed out.  The repository itself is modelled by a small state of commit
ids, per-commit messages and tags, enough to express the backup/rollback
properties of the workflow.
-/

namespace PushHooks

/-! ## Python string primitives (ASCII fragment) -/

/-- Python's notion of a whitespace character (`str.strip`, regex `\s`),
restricted to the ASCII range. -/
def pyIsSpace (c : Char) : Bool :=
  c = ' ' || c = '\t' || c = '\n' || c = '\r' || c = '\x0b' || c = '\x0c'

/-- A character of the regex class `[/\w\-]` (written in the source with
the slash last) used by the push-command patterns: ASCII `\w` plus hyphen
and slash. -/
def isArgChar (c : Char) : Bool :=
  c.isAlphanum || c = '_' || c = '-' || c = '/'

/-- Python `str.strip()`: drop leading and trailing whitespace. -/
def pyStrip (s : List Char) : List Char :=
  ((s.dropWhile pyIsSpace).reverse.dropWhile pyIsSpace).reverse

/-- Python `sub in s` for strings: `needle` occurs contiguously in `hay`. -/
def containsSub (needle : List Char) : List Char → Bool
  | [] => needle.isPrefixOf []
  | hay@(_ :: rest) => needle.isPrefixOf hay || containsSub needle rest

/-- Python `s.split(sep)` for a single-character separator: keeps empty
pieces, and splitting the empty string yields `[[]]`. -/
def pySplitChar (sep : Char) : List Char → List (List Char)
  | [] => [[]]
  | c :: rest =>
    match pySplitChar sep rest with
    | [] => if c = sep then [[], []] else [[c]]
    | g :: gs => if c = sep then [] :: g :: gs else (c :: g) :: gs

/-- The text after the first `' '` of a commit line, if the line contains a
space at all: `commit.split(' ', 1)[1]` guarded by `' ' in commit`. -/
def afterFirstSpace : List Char → Option (List Char)
  | [] => none
  | c :: rest => if c = ' ' then some rest else afterFirstSpace rest

/-- Python `s.lower()`, ASCII fragment. -/
def pyLower (s : List Char) : List Char := s.map Char.toLower

/-- Worker for `pyReplaceAll`: the counter skips the remaining characters
of an occurrence of `old` that has just been replaced, so that occurrences
are consumed left to right without overlap, as Python's `str.replace`
does. -/
def replaceGo (old rep : List Char) : Nat → List Char → List Char
  | 0, [] => []
  | 0, c :: rest =>
    if old.isPrefixOf (c :: rest) then rep ++ replaceGo old rep (old.length - 1) rest
    else c :: replaceGo old rep 0 rest
  | _ + 1, [] => []
  | k + 1, _ :: rest => replaceGo old rep k rest

/-- Python `s.replace(old, rep)` (all occurrences); `old = []` returns `s`
unchanged (that case is never exercised by the scripts). -/
def pyReplaceAll (old rep : List Char) (s : List Char) : List Char :=
  if old = [] then s else replaceGo old rep 0 s

/-- Python `s.replace(old, rep, 1)`: replace only the first occurrence. -/
def pyReplaceFirst (old rep : List Char) (s : List Char) : List Char :=
  if old = [] then s
  else
    match s with
    | [] => []
    | c :: rest =>
      if old.isPrefixOf (c :: rest) then
        rep ++ (c :: rest).drop old.length
      else
        c :: pyReplaceFirst old rep rest

/-- Core digit parser for Python `int()`: digits possibly separated by
single underscores (an underscore must be followed by a digit). -/
def pyDigits : List Char → Nat → Option Nat
  | [], acc => some acc
  | c :: rest, acc =>
    if c.isDigit then pyDigits rest (acc * 10 + (c.toNat - 48))
    else if c = '_' then
      match rest with
      | d :: _ => if d.isDigit then pyDigits rest acc else none
      | [] => none
    else none

/-- Python `int(s)`: surrounding whitespace allowed, optional sign, then a
nonempty digit string (ASCII fragment); `none` models `ValueError`. -/
def pyInt (s : List Char) : Option Int :=
  let t := pyStrip s
  match t with
  | '+' :: rest =>
    match rest with
    | c :: _ => if c.isDigit then (pyDigits rest 0).map Int.ofNat else none
    | [] => none
  | '-' :: rest =>
    match rest with
    | c :: _ => if c.isDigit then (pyDigits rest 0).map (fun n => -(n : Int)) else none
    | [] => none
  | c :: _ => if c.isDigit then (pyDigits t 0).map Int.ofNat else none
  | [] => none

/-! ## Command classification (`is_push_command`, `pre_push_squash.py`) -/

/-- Consume an exact literal from the front of the input. -/
def matchLit : List Char → List Char → Option (List Char)
  | [], s => some s
  | _ :: _, [] => none
  | l :: ls, c :: cs => if c = l then matchLit ls cs else none

/-- Consume `\s+`: at least one whitespace character (greedy). -/
def spacesPlus (s : List Char) : Option (List Char) :=
  if (s.takeWhile pyIsSpace).length = 0 then none
  else some (s.drop (s.takeWhile pyIsSpace).length)

/-- Automaton state while matching `(\s+[/\w\-]+)*`: either at a group
boundary (zero or more complete groups consumed), inside the `\s+` run of a
group, or inside the `[/\w\-]+` run of a group. -/
inductive ArgSt where
  | boundary
  | afterSpace
  | inArg
deriving DecidableEq, Repr

/-- One transition of the automaton for `(\s+[/\w\-]+)*`; `none` is the
reject state.  Because the classes `\s` and `[/\w\-]` are disjoint, the
regex is deterministic and this automaton recognizes exactly its
language. -/
def argStep (st : Option ArgSt) (c : Char) : Option ArgSt :=
  match st with
  | none => none
  | some st =>
    if pyIsSpace c then some .afterSpace
    else if isArgChar c then
      match st with
      | .boundary => none
      | .afterSpace => some .inArg
      | .inArg => some .inArg
    else none

/-- Accepting states of the automaton: a group boundary (including the
empty tail) or the inside of an argument run (the current group is
complete). -/
def argAccept : Option ArgSt → Bool
  | some .boundary => true
  | some .inArg => true
  | _ => false

/-- Match `(\s+[/\w\-]+)*$` against the rest of the command: the groups
must consume everything up to the position where `$` matches, which under
Python semantics (no `MULTILINE`) is the end of the string or the position
just before a single trailing newline. -/
def matchArgGroups (s : List Char) : Bool :=
  argAccept (s.foldl argStep (some .boundary))
    || (match s.getLast? with
        | some '\n' => argAccept (s.dropLast.foldl argStep (some .boundary))
        | _ => false)

/-- The first of the two `SAFE_PUSH_PATTERNS` (`git`, `\s+`, `push`, then
the argument groups), applied with `re.match`, as a Boolean. -/
def matchGitPush (s : List Char) : Bool :=
  match matchLit "git".data s with
  | none => false
  | some r1 =>
    match spacesPlus r1 with
    | none => false
    | some r2 =>
      match matchLit "push".data r2 with
      | none => false
      | some r3 => matchArgGroups r3

/-- The second of the two `SAFE_PUSH_PATTERNS` (`jj`, `\s+`, `git`, `\s+`,
`push`, then the argument groups), applied with `re.match`, as a Boolean. -/
def matchJjGitPush (s : List Char) : Bool :=
  match matchLit "jj".data s with
  | none => false
  | some r0 =>
    match spacesPlus r0 with
    | none => false
    | some r1 =>
      match matchLit "git".data r1 with
      | none => false
      | some r2 =>
        match spacesPlus r2 with
        | none => false
        | some r3 =>
          match matchLit "push".data r3 with
          | none => false
          | some r4 => matchArgGroups r4

/-- `is_push_command` of `pre_push_squash.py`: the command matches one of
the two `SAFE_PUSH_PATTERNS`. -/
def is_push_command (command : String) : Bool :=
  matchGitPush command.data || matchJjGitPush command.data

/-! ## WIP detection (`has_wip_commits`) -/

/-- The per-entry check of `has_wip_commits`: the entry contains a space and
the text after the first space starts with `'WIP: '` or `'WIP:'`. -/
def wipEntry (commit : List Char) : Bool :=
  match afterFirstSpace commit with
  | some message =>
    "WIP: ".data.isPrefixOf message || "WIP:".data.isPrefixOf message
  | none => false

/-- `has_wip_commits` of `pre_push_squash.py`. -/
def has_wip_commits (commits : List (List Char)) : Bool :=
  commits.any wipEntry

/-! ## Subprocess outcome model -/

/-- Outcome of one `run_git` invocation with `check=True`:
the process completed with exit status 0 and printed `stdout`, completed
with a nonzero exit status (`CalledProcessError`), or exceeded its
timeout (`TimeoutExpired`). -/
inductive RunRes where
  | ok (stdout : String)
  | fail
  | timeout
deriving DecidableEq, Repr

/-- Outcome of the `merge-tree` invocation, which is run with
`check=False`: it either completes (with any exit status) or times out. -/
inductive MergeRes where
  | completed (exitCode : Nat) (stdout : String)
  | timeout
deriving DecidableEq, Repr

/-! ## Squash validation (`validate_squash`) -/

/-- `validate_squash` of `pre_push_squash.py`, as a function of the
outcomes of its two git queries (`rev-list --count origin/main..HEAD` and
`tag -l <backup_tag>`, both without timeout, so `Option`: `none` is a
`CalledProcessError`).  A parse failure of the count (`ValueError`) is also
caught and yields `false`. -/
def validate_squash (revCountRes tagListRes : Option String) (backup_tag : String) : Bool :=
  match revCountRes with
  | none => false
  | some out =>
    match pyInt (pyStrip out.data) with
    | none => false
    | some count =>
      match tagListRes with
      | none => false
      | some tout =>
        let tag_exists := containsSub backup_tag.data tout.data
        if count ≠ 1 then false
        else if !tag_exists then false
        else true

/-! ## Repository model

A small model of the git repository: commit ids are natural numbers, the
message of each commit is tracked, tags are an association list.  Only the
operations the hook performs are modelled. -/

structure GitState where
  head : Nat
  msgs : List (Nat × String)
  tags : List (String × Nat)
  next : Nat
  originMain : Nat
deriving DecidableEq, Repr

/-- Message of the commit `HEAD` points at (`git log --format=%B -n 1`). -/
def headMsg (st : GitState) : String := (st.msgs.lookup st.head).getD ""

/-- `git commit -m m`: a fresh commit becomes `HEAD`. -/
def doCommit (m : String) (st : GitState) : GitState :=
  { st with head := st.next, msgs := (st.next, m) :: st.msgs, next := st.next + 1 }

/-- `git commit --amend -m m`: `HEAD` is rewritten to a fresh commit. -/
def doAmend (m : String) (st : GitState) : GitState :=
  { st with head := st.next, msgs := (st.next, m) :: st.msgs, next := st.next + 1 }

/-- `git tag name`: the tag points at the current `HEAD`. -/
def doTag (name : String) (st : GitState) : GitState :=
  { st with tags := (name, st.head) :: st.tags }

/-- `git reset --soft origin/main`: `HEAD` moves to the remote tip. -/
def doResetSoftToOrigin (st : GitState) : GitState :=
  { st with head := st.originMain }

/-- `git reset --hard name`: `HEAD` moves to the commit the tag points at. -/
def doResetHard (name : String) (st : GitState) : GitState :=
  { st with head := (st.tags.lookup name).getD st.head }

/-! ## Decisions, events and the environment -/

/-- A permission decision, as emitted by `allow_command` / `deny_command`. -/
inductive Decision where
  | allow
  | deny (reason : String)
deriving DecidableEq, Repr

/-- Result of the body of `main` before the top-level `except Exception`
handler: either a decision was printed (`sys.exit(0)` via `allow_command` /
`deny_command`) or an exception escaped. -/
inductive BodyOut where
  | dec (d : Decision)
  | exc (msg : String)
deriving DecidableEq, Repr

/-- Trace events: read-only queries are recorded as `repoQ`; each
state-changing git command that succeeds is recorded individually, and
`summary` records the `show_pre_push_summary` output (WIP count and the
synthesized commit message).  The hook never runs `git tag -d`, so a
`tagDelete` event is never emitted by the embedding; it is included so that
its absence can be stated. -/
inductive Ev where
  | version
  | repoQ (cmd : String)
  | addAll
  | commitCmd (msg : String)
  | amend (msg : String)
  | summary (wipCount : Nat) (msg : String)
  | tagCreate (name : String)
  | resetSoft
  | resetHard (target : String)
  | tagDelete (name : String)
deriving DecidableEq, Repr

/-- The hook's standard input after JSON parsing:
`tool_input.command` (absent keys default to `""`). -/
structure HookInput where
  command : String
deriving Repr

/-- Environment of one run: the outcome of every subprocess call the hook
may make, the confirmation lines read from the terminal, the interruption
flag at the two checkpoints where it is consulted, and the current time
used for the backup tag name. -/
structure Env where
  gitVersionOk : Bool
  stdin : Except String HookInput
  branchRes : Option String
  fetchRes : RunRes
  revListRes : RunRes
  logHeadFails : Bool
  amendFails : Bool
  mergeTreeRes : MergeRes
  interrupted1 : Bool
  interrupted2 : Bool
  diff1Res : RunRes
  diff2Res : RunRes
  addFails : Bool
  autoCommitFails : Bool
  diffNamesRes : RunRes
  planRead : Option String
  diffStatRes : RunRes
  diffFullRes : RunRes
  logSubjectsRes : Option String
  confirm1 : Option String
  confirm2 : Option String
  now : Nat
  revParseFails : Bool
  tagCreateFails : Bool
  resetSoftFails : Bool
  commitSquashFails : Bool
  revCountRes : Option String
  tagListRes : Option String
  logShowFails : Bool
  resetHardFails : Bool

/-! ## Embedded helpers of `pre_push_squash.py` -/

/-- `result.stdout.strip().split('\n') if result.stdout.strip() else []`. -/
def commitsOf (stdout : String) : List (List Char) :=
  let s := pyStrip stdout.data
  if s = [] then [] else pySplitChar '\n' s

/-- `get_commits_to_push`: fetch (timeout 60s), then
`rev-list origin/main..HEAD --oneline` (timeout 10s).  A timeout of either
call denies the push reporting the timed-out wait; a `CalledProcessError`
yields the empty commit list. -/
def get_commits_to_push (fetchRes revListRes : RunRes) :
    (Decision ⊕ List (List Char)) × List Ev :=
  match fetchRes with
  | .timeout =>
    (.inl (.deny "Fetch timeout - check network connection (waited 60s)"),
     [.repoQ "fetch origin"])
  | .fail => (.inr [], [.repoQ "fetch origin"])
  | .ok _ =>
    match revListRes with
    | .timeout =>
      (.inl (.deny "Fetch timeout - check network connection (waited 10s)"),
       [.repoQ "fetch origin", .repoQ "rev-list origin/main..HEAD --oneline"])
    | .fail => (.inr [], [.repoQ "fetch origin", .repoQ "rev-list origin/main..HEAD --oneline"])
    | .ok out =>
      (.inr (commitsOf out), [.repoQ "fetch origin", .repoQ "rev-list origin/main..HEAD --oneline"])

/-- `has_unstaged_changes`: two no-op diffs with a 10s timeout each; a
timeout of either yields `false`, a nonzero exit of either yields `true`,
two clean exits yield `false`. -/
def has_unstaged_changes (d1 d2 : RunRes) : Bool × List Ev :=
  match d1 with
  | .timeout => (false, [.repoQ "diff --quiet"])
  | .fail => (true, [.repoQ "diff --quiet"])
  | .ok _ =>
    match d2 with
    | .timeout => (false, [.repoQ "diff --quiet", .repoQ "diff --cached --quiet"])
    | .fail => (true, [.repoQ "diff --quiet", .repoQ "diff --cached --quiet"])
    | .ok _ => (false, [.repoQ "diff --quiet", .repoQ "diff --cached --quiet"])

/-- The textual conflict scan of `has_merge_conflicts`. -/
def markerScan (stdout : String) : Bool :=
  containsSub "<<<<<".data stdout.data
    || containsSub "conflict".data (pyLower stdout.data)

/-- `has_merge_conflicts`: `merge-tree origin/main HEAD` is run with
`check=False`, so a completed invocation (any exit status) is scanned for
conflict markers; a timeout yields `true`. -/
def has_merge_conflicts (res : MergeRes) : Bool × List Ev :=
  match res with
  | .timeout => (true, [.repoQ "merge-tree origin/main HEAD"])
  | .completed _ out => (markerScan out, [.repoQ "merge-tree origin/main HEAD"])

/-- `find_plan_file`: first changed file under `plans/` ending in `.md`. -/
def find_plan_file (res : RunRes) : Option String × List Ev :=
  match res with
  | .ok out =>
    let files := pySplitChar '\n' (pyStrip out.data)
    let plan_files := files.filter fun f =>
      containsSub "plans/".data f && ".md".data.isSuffixOf f
    (plan_files.head?.map (fun l => String.mk l),
     [.repoQ "diff --name-only origin/main..HEAD"])
  | _ => (none, [.repoQ "diff --name-only origin/main..HEAD"])

/-- The line scan of `parse_completed_scenarios`: a line containing the
DONE marker makes the directly following line a candidate scenario title. -/
def scanScenarioLines : List (List Char) → List (List Char)
  | [] => []
  | [_] => []
  | l1 :: l2 :: rest =>
    (if containsSub "<!-- DONE -->".data l1 then
      (let sl := pyStrip l2
       if "Scenario:".data.isPrefixOf sl then
         [pyStrip (pyReplaceAll "Scenario:".data [] sl)]
       else [])
     else []) ++ scanScenarioLines (l2 :: rest)

/-- `parse_completed_scenarios` of `pre_push_squash.py`. -/
def parse_completed_scenarios (content : List Char) : List (List Char) :=
  scanScenarioLines (pySplitChar '\n' content)

/-- `line.split('|')[0]`: the characters before the first `'|'`. -/
def beforeBar (l : List Char) : List Char := l.takeWhile (fun x => x ≠ '|')

/-- `analyze_diff`: summarize `diff --stat origin/main HEAD`; any failure
or timeout of either diff yields the fixed fallback text. -/
def analyze_diff (statRes fullRes : RunRes) : List Char × List Ev :=
  match statRes with
  | .ok statOut =>
    match fullRes with
    | .ok _ =>
      let stat_lines := pySplitChar '\n' (pyStrip statOut.data)
      let files_changed :=
        (stat_lines.filter (fun l => containsSub "|".data l)).map
          (fun l => pyStrip (beforeBar l))
      if files_changed = [] then
        ("No file changes".data,
         [.repoQ "diff --stat origin/main HEAD", .repoQ "diff origin/main HEAD"])
      else
        let base := (toString files_changed.length).data ++ " files changed".data
        ((if files_changed.length ≤ 3 then
            base ++ ": ".data ++ List.intercalate ", ".data files_changed
          else base),
         [.repoQ "diff --stat origin/main HEAD", .repoQ "diff origin/main HEAD"])
    | _ =>
      ("Unable to analyze diff".data,
       [.repoQ "diff --stat origin/main HEAD", .repoQ "diff origin/main HEAD"])
  | _ => ("Unable to analyze diff".data, [.repoQ "diff --stat origin/main HEAD"])

/-- The `\s*(.+)` tail of the goal regex applied at a fixed position:
greedy whitespace, then at least one non-newline character, with the
backtracking the regex engine performs when everything after the literal is
whitespace. -/
def goalCapture (rest : List Char) : Option (List Char) :=
  let ws := rest.takeWhile pyIsSpace
  let rem := rest.drop ws.length
  match rem with
  | _ :: _ => some (rem.takeWhile (fun c => c ≠ '\n'))
  | [] =>
    match ws.reverse.dropWhile (fun c => c = '\n') with
    | [] => none
    | c :: _ => some [c]

/-- `re.search(r'\*\*Goal\*\*:\s*(.+)', content)`: leftmost occurrence of
the literal `**Goal**:` whose tail admits a capture. -/
def findGoal : List Char → Option (List Char)
  | [] => none
  | s@(_ :: rest) =>
    if "**Goal**:".data.isPrefixOf s then
      match goalCapture (s.drop 9) with
      | some g => some g
      | none => findGoal rest
    else findGoal rest

/-- `generate_commit_message`: from the plan file when it exists, otherwise
from the concatenated WIP subjects (`log --format=%s`, whose failure raises
out of the function). -/
def generate_commit_message (planRead logSubjectsRes : Option String)
    (diffStatRes diffFullRes : RunRes) (plan_file : Option String) (wip_count : Nat) :
    Except String String × List Ev :=
  match plan_file, planRead with
  | some _, some content =>
    let goal :=
      match findGoal content.data with
      | none => "Complete /tommymorgan:work session".data
      | some g => pyStrip g
    let completed := parse_completed_scenarios content.data
    let ds := analyze_diff diffStatRes diffFullRes
    let parts : List (List Char) :=
      [goal, []]
        ++ (if completed = [] then [] else
              "Completed scenarios:".data :: (completed.map (fun s => "- ".data ++ s) ++ [[]]))
        ++ ["Key changes: ".data ++ ds.1, [],
            "Squashed ".data ++ (toString wip_count).data ++ " WIP commits".data, [],
            "🤖 Generated with [Claude Code](https://claude.com/claude-code)".data, [],
            "Co-Authored-By: Claude Sonnet 4.5 (1M context) <noreply@anthropic.com>".data]
    (.ok (String.mk (List.intercalate "\n".data parts)), ds.2)
  | _, _ =>
    match logSubjectsRes with
    | none =>
      (.error "git log --format raised CalledProcessError",
       [.repoQ "log --format=%s origin/main..HEAD"])
    | some out =>
      let messages := pySplitChar '\n' (pyStrip out.data)
      let combined :=
        List.intercalate "\n".data
          ((messages.filter (fun m => m ≠ [])).map (pyReplaceAll "WIP: ".data []))
      (.ok (String.mk ("feat: ".data ++ combined
          ++ "\n\n🤖 Generated with [Claude Code](https://claude.com/claude-code)\n\nCo-Authored-By: Claude Sonnet 4.5 (1M context) <noreply@anthropic.com>".data)),
       [.repoQ "log --format=%s origin/main..HEAD"])

/-- `get_user_confirmation`: `none` models an `OSError` opening `/dev/tty`;
otherwise the line is stripped, lowercased and compared against
`['y', 'yes', '']`. -/
def parseConfirm (line : Option String) : Option Bool :=
  line.map fun l =>
    let r := pyLower (pyStrip l.data)
    r == "y".data || r == "yes".data || r == []

/-- The git queries `validate_squash` actually issues: the count query
always, the tag query only when the count was obtained and parsed. -/
def validate_squash_events (revCountRes : Option String) : List Ev :=
  match revCountRes with
  | none => [.repoQ "rev-list --count origin/main..HEAD"]
  | some out =>
    match pyInt (pyStrip out.data) with
    | none => [.repoQ "rev-list --count origin/main..HEAD"]
    | some _ => [.repoQ "rev-list --count origin/main..HEAD", .repoQ "tag -l"]

/-- `signal_handler` of `pre_push_squash.py`: the denial produced on
SIGINT/SIGTERM, as a function of the in-flight `backup_tag_global`. -/
def signal_handler (backup_tag_global : Option String) : Decision :=
  match backup_tag_global with
  | some t => .deny ("Interrupted - backup tag preserved: " ++ t)
  | none => .deny "Interrupted"

/-! ## The workflow (`main` of `pre_push_squash.py`), in stages -/

/-- The part of `main` after the first confirmation was affirmative:
`create_backup_tag`, interruption checkpoint, `squash_commits`,
`validate_squash`, final review and second confirmation with rollback. -/
def stageSquash (env : Env) (st : GitState) (tr : List Ev)
    (commit_message : String) : BodyOut × List Ev × GitState :=
  if env.revParseFails then
    (.exc "git rev-parse raised CalledProcessError", tr ++ [.repoQ "rev-parse --short HEAD"], st)
  else
    let tag_name := "backup/pre-squash-" ++ toString st.head ++ "-" ++ toString env.now
    let tr := tr ++ [.repoQ "rev-parse --short HEAD"]
    if env.tagCreateFails then (.exc "git tag raised CalledProcessError", tr, st)
    else
      let st := doTag tag_name st
      let tr := tr ++ [.tagCreate tag_name]
      if env.interrupted2 then
        (.dec (.deny ("Interrupted - backup tag preserved: " ++ tag_name)), tr, st)
      else if env.resetSoftFails then
        (.dec (.deny ("Squash failed: CalledProcessError\nBackup tag preserved: " ++ tag_name)), tr, st)
      else
        let st := doResetSoftToOrigin st
        let tr := tr ++ [.resetSoft]
        if env.commitSquashFails then
          (.dec (.deny ("Squash failed: CalledProcessError\nBackup tag preserved: " ++ tag_name)), tr, st)
        else
          let st := doCommit commit_message st
          let tr := tr ++ [.commitCmd commit_message] ++ validate_squash_events env.revCountRes
          if !validate_squash env.revCountRes env.tagListRes tag_name then
            (.dec (.deny ("Squash validation failed\nBackup tag preserved: " ++ tag_name)), tr, st)
          else if env.logShowFails then
            (.exc "git log raised CalledProcessError", tr ++ [.repoQ "log -1 --pretty=format:%B"], st)
          else
            let tr := tr ++ [.repoQ "log -1 --pretty=format:%B"]
            match parseConfirm env.confirm2 with
            | none => (.dec (.deny "Non-interactive environment - manual squash required"), tr, st)
            | some true => (.dec .allow, tr, st)
            | some false =>
              if env.resetHardFails then
                (.exc "git reset --hard raised CalledProcessError", tr, st)
              else
                (.dec (.deny "Squash cancelled - restored to original state"),
                 tr ++ [.resetHard tag_name], doResetHard tag_name st)

/-- The part of `main` that finds the plan file, synthesizes the commit
message, shows the summary and asks the first confirmation. -/
def stageMessage (env : Env) (st : GitState) (tr : List Ev) (wip_count : Nat) :
    BodyOut × List Ev × GitState :=
  let fp := find_plan_file env.diffNamesRes
  let tr := tr ++ fp.2
  match generate_commit_message env.planRead env.logSubjectsRes env.diffStatRes
      env.diffFullRes fp.1 wip_count with
  | (.error e, evG) => (.exc e, tr ++ evG, st)
  | (.ok commit_message, evG) =>
    let tr := tr ++ evG ++ [.summary wip_count commit_message]
    match parseConfirm env.confirm1 with
    | none => (.dec (.deny "Non-interactive environment - manual squash required"), tr, st)
    | some false => (.dec (.deny "Push cancelled by user"), tr, st)
    | some true => stageSquash env st tr commit_message

/-- The part of `main` that auto-commits unstaged changes (incrementing the
count) before message synthesis. -/
def stageStage (env : Env) (st : GitState) (tr : List Ev) (wip_count : Nat) :
    BodyOut × List Ev × GitState :=
  let hu := has_unstaged_changes env.diff1Res env.diff2Res
  let tr := tr ++ hu.2
  if hu.1 then
    if env.addFails then (.exc "git add -A raised CalledProcessError", tr, st)
    else if env.autoCommitFails then
      (.exc "git commit raised CalledProcessError", tr ++ [.addAll], st)
    else
      stageMessage env (doCommit "WIP: auto-commit unstaged changes" st)
        (tr ++ [.addAll, .commitCmd "WIP: auto-commit unstaged changes"]) (wip_count + 1)
  else stageMessage env st tr wip_count

/-- The part of `main` that checks merge conflicts and the first
interruption checkpoint. -/
def stageConflict (env : Env) (st : GitState) (tr : List Ev) (wip_count : Nat) :
    BodyOut × List Ev × GitState :=
  let hc := has_merge_conflicts env.mergeTreeRes
  let tr := tr ++ hc.2
  if hc.1 then
    (.dec (.deny "❌ Merge conflicts with origin/main\nResolve conflicts first: git rebase origin/main"), tr, st)
  else if env.interrupted1 then
    (.dec (.deny "Interrupted by user"), tr, st)
  else stageStage env st tr wip_count

/-- The part of `main` after the commit list is known: WIP detection and
the single-commit fast path (strip the `WIP: ` prefix by amending). -/
def stageWip (env : Env) (st : GitState) (tr : List Ev) (commits : List (List Char)) :
    BodyOut × List Ev × GitState :=
  if !has_wip_commits commits then (.dec .allow, tr, st)
  else
    let wip_count := commits.length
    if wip_count = 1 then
      if env.logHeadFails then
        (.exc "git log raised CalledProcessError", tr ++ [.repoQ "log --format=%B -n 1 HEAD"], st)
      else
        let tr := tr ++ [.repoQ "log --format=%B -n 1 HEAD"]
        let commit_msg := pyStrip (headMsg st).data
        if "WIP: ".data.isPrefixOf commit_msg then
          let new_msg := String.mk (pyReplaceFirst "WIP: ".data [] commit_msg)
          if env.amendFails then
            (.exc "git commit --amend raised CalledProcessError", tr, st)
          else (.dec .allow, tr ++ [.amend new_msg], doAmend new_msg st)
        else (.dec .allow, tr, st)
    else stageConflict env st tr wip_count

/-- The body of `main` up to (but not including) the top-level
`except Exception` handler: dependency validation, input parsing, command
classification, branch check, commit enumeration, then the later stages. -/
def mainBody (env : Env) (st : GitState) : BodyOut × List Ev × GitState :=
  if !env.gitVersionOk then
    (.dec (.deny "Git command not found - please install git"), [.version], st)
  else
    match env.stdin with
    | .error e => (.dec (.deny ("Error parsing hook input: " ++ e)), [.version], st)
    | .ok hook_input =>
      if !is_push_command hook_input.command then (.dec .allow, [.version], st)
      else
        match env.branchRes with
        | none =>
          (.exc "git branch --show-current raised CalledProcessError",
           [.version, .repoQ "branch --show-current"], st)
        | some bout =>
          let branch := pyStrip bout.data
          if !(branch == "main".data || branch == "master".data) then
            (.dec .allow, [.version, .repoQ "branch --show-current"], st)
          else
            let gc := get_commits_to_push env.fetchRes env.revListRes
            let tr := [Ev.version, Ev.repoQ "branch --show-current"] ++ gc.2
            match gc.1 with
            | .inl d => (.dec d, tr, st)
            | .inr commits =>
              if commits = [] then (.dec .allow, tr, st)
              else stageWip env st tr commits

/-- `main` including the top-level handler: an escaped exception is logged
and converted into a generic denial. -/
def mainRun (env : Env) (st : GitState) : Decision × List Ev × GitState :=
  match mainBody env st with
  | (.dec d, tr, st') => (d, tr, st')
  | (.exc e, tr, st') => (.deny ("Hook error: " ++ e), tr, st')

/-- The JSON object written by `allow_command` / `deny_command`, together
with the process exit status (`sys.exit(0)` in both). -/
structure HookOutput where
  permissionDecision : String
  permissionDecisionReason : Option String
deriving DecidableEq, Repr

/-- `allow_command` / `deny_command`: render a decision as the
`hookSpecificOutput` payload plus the exit code. -/
def renderDecision : Decision → HookOutput × Nat
  | .allow => ({ permissionDecision := "allow", permissionDecisionReason := none }, 0)
  | .deny reason =>
    ({ permissionDecision := "deny", permissionDecisionReason := some reason }, 0)

/-! ## The post-push cleanup hook (`post-push-cleanup.py`) -/

/-- Standard input of the cleanup hook: `tool_input.command` (default `""`)
and `tool_result.exit_code` (default `0` when absent). -/
structure CleanupInput where
  command : String
  exitCode : Option Int

/-- `is_push_command` of `post-push-cleanup.py`: prefix-only patterns
(`^git\s+push` and the `jj` variant), no anchoring at the end. -/
def cleanupIsPush (command : String) : Bool :=
  (match matchLit "git".data command.data with
   | some r1 =>
     match spacesPlus r1 with
     | some r2 => (matchLit "push".data r2).isSome
     | none => false
   | none => false)
  || (match matchLit "jj".data command.data with
      | some r0 =>
        match spacesPlus r0 with
        | some r1 =>
          match matchLit "git".data r1 with
          | some r2 =>
            match spacesPlus r2 with
            | some r3 => (matchLit "push".data r3).isSome
            | none => false
          | none => false
        | none => false
      | none => false)

/-- The per-tag deletion test of `delete_backup_tags`: at least four
`'-'`-separated parts, a numeric final part, and an age below 300s (a
non-numeric timestamp is a caught `ValueError`). -/
def shouldDeleteTag (now : Nat) (tag : List Char) : Bool :=
  let parts := pySplitChar '-' tag
  if parts.length ≥ 4 then
    match parts.getLast? with
    | some lastPart =>
      match pyInt lastPart with
      | some ts => decide ((now : Int) - ts < 300)
      | none => false
    | none => false
  else false

/-- `delete_backup_tags`: the list of tags the hook deletes, as a function
of the `tag -l 'backup/pre-squash-*'` output (`none` models the caught
`CalledProcessError`) and the current time. -/
def delete_backup_tags (tagListOut : Option String) (now : Nat) : List (List Char) :=
  match tagListOut with
  | none => []
  | some out =>
    let tags := if pyStrip out.data = [] then [] else pySplitChar '\n' (pyStrip out.data)
    tags.filter fun tag => tag ≠ [] && shouldDeleteTag now tag

/-- `main` of `post-push-cleanup.py`: tags are deleted only after a
successfully parsed input whose command is a push and whose reported exit
code (defaulting to 0) is 0; every failure is swallowed. -/
def cleanupMain (stdin : Except String CleanupInput) (tagListOut : Option String)
    (now : Nat) : List (List Char) :=
  match stdin with
  | .error _ => []
  | .ok inp =>
    if cleanupIsPush inp.command && inp.exitCode.getD 0 == 0 then
      delete_backup_tags tagListOut now
    else []

/-! ## Statement-side definitions -/

/-- Checks that, reading a trace left to right, every `resetSoft` event is
preceded by some `tagCreate` event; the Boolean argument says whether a tag
was already created before the trace started. -/
def okOrder : List Ev → Bool → Bool
  | [], _ => true
  | .resetSoft :: rest, seen => seen && okOrder rest seen
  | .tagCreate _ :: rest, _ => okOrder rest true
  | _ :: rest, seen => okOrder rest seen

/-- Whether a `tagCreate` event occurs in the trace (threaded flag). -/
def seenTag : List Ev → Bool → Bool
  | [], s => s
  | .tagCreate _ :: rest, _ => seenTag rest true
  | _ :: rest, s => seenTag rest s

/-- A nonempty run of regex-`\s` characters (claim-side grammar). -/
def spaceRun (w : List Char) : Prop := w ≠ [] ∧ ∀ c ∈ w, pyIsSpace c = true

/-- A nonempty word of `[/\w\-]` characters (claim-side grammar). -/
def argWord (w : List Char) : Prop := w ≠ [] ∧ ∀ c ∈ w, isArgChar c = true

/-- The claim's push-command grammar: the literal `git push` (or
`jj git push`) followed by whitespace-separated simple arguments.  This is
the specification-side description the classifier is compared against. -/
def pushGrammar (s : String) : Prop :=
  ∃ gs : List (List Char × List Char),
    (∀ p ∈ gs, spaceRun p.1 ∧ argWord p.2) ∧
    (s.data = "git push".data ++ (gs.map fun p => p.1 ++ p.2).flatten
     ∨ s.data = "jj git push".data ++ (gs.map fun p => p.1 ++ p.2).flatten)

/-- A concrete environment that drives the workflow through the full
squash path (two WIP commits, clean tree, no plan file, first confirmation
affirmative, second declined); used to instantiate the theorems below. -/
def envBase : Env :=
  { gitVersionOk := true
    stdin := .ok ⟨"git push"⟩
    branchRes := some "main"
    fetchRes := .ok ""
    revListRes := .ok "a1 WIP: x\nb2 WIP: y"
    logHeadFails := false
    amendFails := false
    mergeTreeRes := .completed 0 ""
    interrupted1 := false
    interrupted2 := false
    diff1Res := .ok ""
    diff2Res := .ok ""
    addFails := false
    autoCommitFails := false
    diffNamesRes := .ok ""
    planRead := none
    diffStatRes := .ok ""
    diffFullRes := .ok ""
    logSubjectsRes := some "WIP: x\nWIP: y"
    confirm1 := some "y"
    confirm2 := some "n"
    now := 1000
    revParseFails := false
    tagCreateFails := false
    resetSoftFails := false
    commitSquashFails := false
    revCountRes := some "1"
    tagListRes := some "backup/pre-squash-5-1000"
    logShowFails := false
    resetHardFails := false }

/-- A concrete repository state matching `envBase`: two local commits
(`HEAD` at 5) on top of the remote tip 3. -/
def stBase : GitState :=
  { head := 5, msgs := [(5, "WIP: y")], tags := [], next := 6, originMain := 3 }

/-! ## General helper lemmas -/

theorem takeWhile_drop_eq (p : Char → Bool) :
    ∀ l : List Char, l.takeWhile p ++ l.drop (l.takeWhile p).length = l := by
  intro l
  induction l with
  | nil => simp
  | cons c rest ih =>
    rw [List.takeWhile_cons]
    split
    · simpa using ih
    · simp

theorem containsSub_nil_needle : ∀ hay : List Char, containsSub [] hay = true := by
  intro hay
  induction hay with
  | nil => simp [containsSub, List.isPrefixOf]
  | cons x rest ih => simp [containsSub, List.isPrefixOf]

theorem isPrefixOf_append_self (l r : List Char) : l.isPrefixOf (l ++ r) = true := by
  rw [List.isPrefixOf_iff_prefix]
  exact List.prefix_append l r

theorem containsSub_sandwich (n pre suf : List Char) :
    containsSub n (pre ++ (n ++ suf)) = true := by
  induction pre with
  | nil =>
    cases n with
    | nil => simpa using containsSub_nil_needle suf
    | cons c cs =>
      simp only [List.nil_append, containsSub, List.append_eq]
      have h : (c :: cs).isPrefixOf ((c :: cs) ++ suf) = true := isPrefixOf_append_self _ _
      simp only [List.cons_append] at h
      rw [h]
      simp
  | cons x xs ih => simp [containsSub, ih]

theorem containsSub_str_append (pre t : String) :
    containsSub t.data (pre ++ t).data = true := by
  rw [String.data_append]
  have h := containsSub_sandwich t.data pre.data []
  simpa using h

theorem containsSub_head_mem :
    ∀ (c : Char) (cs hay : List Char), containsSub (c :: cs) hay = true → c ∈ hay := by
  intro c cs hay
  induction hay with
  | nil => simp [containsSub, List.isPrefixOf]
  | cons x rest ih =>
    simp only [containsSub, Bool.or_eq_true]
    rintro (h | h)
    · rw [List.isPrefixOf_iff_prefix] at h
      rw [List.cons_prefix_cons] at h
      simp [h.1]
    · exact List.mem_cons_of_mem _ (ih h)

/-! ## Lemmas about the push-pattern automaton -/

theorem foldl_argStep_none : ∀ s : List Char, s.foldl argStep none = none := by
  intro s
  induction s with
  | nil => rfl
  | cons c rest ih => simpa [argStep] using ih

theorem argStep_some_chars {st st' : ArgSt} {c : Char}
    (h : argStep (some st) c = some st') : (pyIsSpace c || isArgChar c) = true := by
  by_cases hs : pyIsSpace c
  · simp [hs]
  · by_cases ha : isArgChar c
    · simp [ha]
    · simp [argStep, hs, ha] at h

theorem foldl_argStep_chars :
    ∀ (s : List Char) (st st' : ArgSt), s.foldl argStep (some st) = some st' →
      ∀ c ∈ s, (pyIsSpace c || isArgChar c) = true := by
  intro s
  induction s with
  | nil => simp
  | cons c rest ih =>
    intro st st' h d hd
    rw [List.foldl_cons] at h
    cases hstep : argStep (some st) c with
    | none => rw [hstep, foldl_argStep_none] at h; exact absurd h (by simp)
    | some st1 =>
      rw [hstep] at h
      rcases List.mem_cons.mp hd with rfl | hmem
      · exact argStep_some_chars hstep
      · exact ih st1 st' h d hmem

theorem matchArgGroups_chars :
    ∀ s : List Char, matchArgGroups s = true →
      ∀ c ∈ s, (pyIsSpace c || isArgChar c) = true := by
  intro s h c hc
  unfold matchArgGroups at h
  rcases Bool.or_eq_true _ _ |>.mp h with h1 | h2
  · cases hfold : s.foldl argStep (some .boundary) with
    | none => rw [hfold] at h1; simp [argAccept] at h1
    | some st' => exact foldl_argStep_chars s _ st' hfold c hc
  · split at h2
    case h_1 heq =>
      have hne : s ≠ [] := by intro he; subst he; simp at heq
      have hdecomp := List.dropLast_append_getLast hne
      have hlast : s.getLast hne = '\n' :=
        (List.getLast_eq_iff_getLast_eq_some hne).mpr heq
      rw [← hdecomp] at hc
      rcases List.mem_append.mp hc with hmem | hmem
      · cases hfold : s.dropLast.foldl argStep (some .boundary) with
        | none => rw [hfold] at h2; simp [argAccept] at h2
        | some st' => exact foldl_argStep_chars s.dropLast _ st' hfold c hmem
      · have : c = s.getLast hne := by simpa using hmem
        rw [this, hlast]
        decide
    case h_2 => simp at h2

theorem space_not_arg : ∀ c : Char, pyIsSpace c = true → isArgChar c = false := by
  intro c h
  simp only [pyIsSpace, Bool.or_eq_true, decide_eq_true_eq] at h
  rcases h with ((((h | h) | h) | h) | h) | h <;> subst h <;> decide

theorem arg_not_space : ∀ c : Char, isArgChar c = true → pyIsSpace c = false := by
  intro c h
  cases hs : pyIsSpace c with
  | false => rfl
  | true => rw [space_not_arg c hs] at h; exact absurd h (by simp)

theorem foldl_spaces :
    ∀ (sp : List Char) (st : ArgSt), (∀ c ∈ sp, pyIsSpace c = true) → sp ≠ [] →
      sp.foldl argStep (some st) = some .afterSpace := by
  intro sp
  induction sp with
  | nil => simp
  | cons c rest ih =>
    intro st hall _
    have hc : pyIsSpace c = true := hall c (by simp)
    rw [List.foldl_cons]
    have hstep : argStep (some st) c = some .afterSpace := by simp [argStep, hc]
    rw [hstep]
    cases rest with
    | nil => rfl
    | cons d ds =>
      exact ih .afterSpace (fun x hx => hall x (List.mem_cons_of_mem _ hx)) (by simp)

theorem foldl_args :
    ∀ (w : List Char) (st : ArgSt), (∀ c ∈ w, isArgChar c = true) → w ≠ [] →
      (st = .afterSpace ∨ st = .inArg) →
      w.foldl argStep (some st) = some .inArg := by
  intro w
  induction w with
  | nil => simp
  | cons c rest ih =>
    intro st hall _ hst
    have hc : isArgChar c = true := hall c (by simp)
    have hcs : pyIsSpace c = false := arg_not_space c hc
    rw [List.foldl_cons]
    have hstep : argStep (some st) c = some .inArg := by
      rcases hst with rfl | rfl <;> simp [argStep, hcs, hc]
    rw [hstep]
    cases rest with
    | nil => rfl
    | cons d ds =>
      exact ih .inArg (fun x hx => hall x (List.mem_cons_of_mem _ hx)) (by simp) (Or.inr rfl)

theorem groups_fold :
    ∀ (gs : List (List Char × List Char)) (st : ArgSt),
      (∀ p ∈ gs, spaceRun p.1 ∧ argWord p.2) → (st = .boundary ∨ st = .inArg) →
      argAccept (((gs.map fun p => p.1 ++ p.2).flatten).foldl argStep (some st)) = true := by
  intro gs
  induction gs with
  | nil =>
    intro st _ hst
    rcases hst with rfl | rfl <;> rfl
  | cons g rest ih =>
    intro st hall hst
    obtain ⟨⟨hsp_ne, hsp⟩, ⟨hw_ne, hw⟩⟩ := hall g (by simp)
    simp only [List.map_cons, List.flatten_cons, List.append_assoc, List.foldl_append]
    rw [foldl_spaces g.1 st hsp hsp_ne, foldl_args g.2 .afterSpace hw hw_ne (Or.inl rfl)]
    exact ih .inArg (fun p hp => hall p (List.mem_cons_of_mem _ hp)) (Or.inr rfl)

theorem matchLit_eq_some :
    ∀ (lit s r : List Char), matchLit lit s = some r → s = lit ++ r := by
  intro lit
  induction lit with
  | nil => intro s r h; simp [matchLit] at h; simp [h]
  | cons l ls ih =>
    intro s r h
    cases s with
    | nil => simp [matchLit] at h
    | cons c cs =>
      by_cases hc : c = l
      · subst hc
        simp only [matchLit, if_pos rfl] at h
        rw [List.cons_append, ih cs r h]
      · simp [matchLit, hc] at h

theorem matchLit_append_self (lit r : List Char) : matchLit lit (lit ++ r) = some r := by
  induction lit with
  | nil => rfl
  | cons l ls ih => simp [matchLit, ih]

theorem spacesPlus_eq_some :
    ∀ s r : List Char, spacesPlus s = some r →
      ∃ sp, s = sp ++ r ∧ sp ≠ [] ∧ ∀ c ∈ sp, pyIsSpace c = true := by
  intro s r h
  unfold spacesPlus at h
  split at h
  · exact absurd h (by simp)
  case isFalse hlen =>
    have hr : s.drop (s.takeWhile pyIsSpace).length = r := Option.some.inj h
    refine ⟨s.takeWhile pyIsSpace, ?_, ?_, ?_⟩
    · rw [← hr]; exact (takeWhile_drop_eq pyIsSpace s).symm
    · intro he; rw [he] at hlen; simp at hlen
    · intro c hc; exact List.mem_takeWhile_imp hc

/-! ## Trace-order machinery -/

theorem okOrder_append : ∀ (a b : List Ev) (s : Bool),
    okOrder (a ++ b) s = (okOrder a s && okOrder b (seenTag a s)) := by
  intro a
  induction a with
  | nil => intro b s; simp [okOrder, seenTag]
  | cons e rest ih =>
    intro b s
    cases e <;> simp [okOrder, seenTag, ih, Bool.and_assoc]

theorem seenTag_append : ∀ (a b : List Ev) (s : Bool),
    seenTag (a ++ b) s = seenTag b (seenTag a s) := by
  intro a
  induction a with
  | nil => intro b s; simp [seenTag]
  | cons e rest ih => intro b s; cases e <;> simp [seenTag, ih]

theorem okOrder_gc (f r : RunRes) (b : Bool) :
    okOrder (get_commits_to_push f r).2 b = true := by
  cases f <;> cases r <;> simp [get_commits_to_push, okOrder]

theorem seenTag_gc (f r : RunRes) (b : Bool) :
    seenTag (get_commits_to_push f r).2 b = b := by
  cases f <;> cases r <;> simp [get_commits_to_push, seenTag]

theorem tagDelete_gc (f r : RunRes) (n : String) :
    Ev.tagDelete n ∉ (get_commits_to_push f r).2 := by
  cases f <;> cases r <;> simp [get_commits_to_push]

theorem okOrder_hu (d1 d2 : RunRes) (b : Bool) :
    okOrder (has_unstaged_changes d1 d2).2 b = true := by
  cases d1 <;> cases d2 <;> simp [has_unstaged_changes, okOrder]

theorem seenTag_hu (d1 d2 : RunRes) (b : Bool) :
    seenTag (has_unstaged_changes d1 d2).2 b = b := by
  cases d1 <;> cases d2 <;> simp [has_unstaged_changes, seenTag]

theorem tagDelete_hu (d1 d2 : RunRes) (n : String) :
    Ev.tagDelete n ∉ (has_unstaged_changes d1 d2).2 := by
  cases d1 <;> cases d2 <;> simp [has_unstaged_changes]

theorem okOrder_hc (r : MergeRes) (b : Bool) :
    okOrder (has_merge_conflicts r).2 b = true := by
  cases r <;> simp [has_merge_conflicts, okOrder]

theorem seenTag_hc (r : MergeRes) (b : Bool) :
    seenTag (has_merge_conflicts r).2 b = b := by
  cases r <;> simp [has_merge_conflicts, seenTag]

theorem tagDelete_hc (r : MergeRes) (n : String) :
    Ev.tagDelete n ∉ (has_merge_conflicts r).2 := by
  cases r <;> simp [has_merge_conflicts]

theorem okOrder_fp (r : RunRes) (b : Bool) :
    okOrder (find_plan_file r).2 b = true := by
  cases r <;> simp [find_plan_file, okOrder]

theorem seenTag_fp (r : RunRes) (b : Bool) :
    seenTag (find_plan_file r).2 b = b := by
  cases r <;> simp [find_plan_file, seenTag]

theorem tagDelete_fp (r : RunRes) (n : String) :
    Ev.tagDelete n ∉ (find_plan_file r).2 := by
  cases r <;> simp [find_plan_file]

theorem okOrder_analyze (a b : RunRes) (s : Bool) :
    okOrder (analyze_diff a b).2 s = true := by
  cases a <;> cases b <;> simp [analyze_diff, okOrder] <;> split <;> simp [okOrder]

theorem seenTag_analyze (a b : RunRes) (s : Bool) :
    seenTag (analyze_diff a b).2 s = s := by
  cases a <;> cases b <;> simp [analyze_diff, seenTag] <;> split <;> simp [seenTag]

theorem tagDelete_analyze (a b : RunRes) (n : String) :
    Ev.tagDelete n ∉ (analyze_diff a b).2 := by
  cases a <;> cases b <;> simp [analyze_diff] <;> split <;> simp

theorem okOrder_gcm (pr ls : Option String) (a b : RunRes) (pf : Option String)
    (k : Nat) (s : Bool) :
    okOrder (generate_commit_message pr ls a b pf k).2 s = true := by
  cases pf <;> cases pr <;> cases ls <;>
    simp [generate_commit_message, okOrder, okOrder_analyze]

theorem seenTag_gcm (pr ls : Option String) (a b : RunRes) (pf : Option String)
    (k : Nat) (s : Bool) :
    seenTag (generate_commit_message pr ls a b pf k).2 s = s := by
  cases pf <;> cases pr <;> cases ls <;>
    simp [generate_commit_message, seenTag, seenTag_analyze]

theorem tagDelete_gcm (pr ls : Option String) (a b : RunRes) (pf : Option String)
    (k : Nat) (n : String) :
    Ev.tagDelete n ∉ (generate_commit_message pr ls a b pf k).2 := by
  cases pf <;> cases pr <;> cases ls <;>
    simp [generate_commit_message, tagDelete_analyze]

theorem okOrder_validate (r : Option String) (b : Bool) :
    okOrder (validate_squash_events r) b = true := by
  unfold validate_squash_events
  cases r with
  | none => simp [okOrder]
  | some out => cases h : pyInt (pyStrip out.data) <;> simp [h, okOrder]

theorem seenTag_validate (r : Option String) (b : Bool) :
    seenTag (validate_squash_events r) b = b := by
  unfold validate_squash_events
  cases r with
  | none => simp [seenTag]
  | some out => cases h : pyInt (pyStrip out.data) <;> simp [h, seenTag]

theorem tagDelete_validate (r : Option String) (n : String) :
    Ev.tagDelete n ∉ validate_squash_events r := by
  unfold validate_squash_events
  cases r with
  | none => simp
  | some out => cases h : pyInt (pyStrip out.data) <;> simp [h]

/-! ## Stage invariants: order of tag creation and reset, no tag deletion -/

theorem stageSquash_inv (env : Env) (st : GitState) (tr : List Ev) (m : String) (s : Bool)
    (h : okOrder tr s = true) (hd : ∀ n, Ev.tagDelete n ∉ tr) :
    okOrder (stageSquash env st tr m).2.1 s = true ∧
      ∀ n, Ev.tagDelete n ∉ (stageSquash env st tr m).2.1 := by
  unfold stageSquash
  dsimp only
  constructor
  · repeat' split
    all_goals
      simp [okOrder_append, seenTag_append, okOrder, seenTag, h,
        okOrder_validate, seenTag_validate]
  · intro n
    repeat' split
    all_goals
      simp [List.mem_append, hd, tagDelete_validate]

theorem stageMessage_inv (env : Env) (st : GitState) (tr : List Ev) (k : Nat) (s : Bool)
    (h : okOrder tr s = true) (hd : ∀ n, Ev.tagDelete n ∉ tr) :
    okOrder (stageMessage env st tr k).2.1 s = true ∧
      ∀ n, Ev.tagDelete n ∉ (stageMessage env st tr k).2.1 := by
  unfold stageMessage
  dsimp only
  rcases hg : generate_commit_message env.planRead env.logSubjectsRes env.diffStatRes
      env.diffFullRes (find_plan_file env.diffNamesRes).1 k with ⟨res, evG⟩
  have hokG : ∀ b, okOrder evG b = true := by
    intro b
    have := okOrder_gcm env.planRead env.logSubjectsRes env.diffStatRes env.diffFullRes
      (find_plan_file env.diffNamesRes).1 k b
    rwa [hg] at this
  have hseenG : ∀ b, seenTag evG b = b := by
    intro b
    have := seenTag_gcm env.planRead env.logSubjectsRes env.diffStatRes env.diffFullRes
      (find_plan_file env.diffNamesRes).1 k b
    rwa [hg] at this
  have hdG : ∀ n, Ev.tagDelete n ∉ evG := by
    intro n
    have := tagDelete_gcm env.planRead env.logSubjectsRes env.diffStatRes env.diffFullRes
      (find_plan_file env.diffNamesRes).1 k n
    rwa [hg] at this
  cases res with
  | error e =>
    constructor
    · simp [okOrder_append, seenTag_append, h, okOrder_fp, seenTag_fp, hokG]
    · simp [List.mem_append, hd, tagDelete_fp, hdG]
  | ok cm =>
    have hok2 : okOrder (tr ++ (find_plan_file env.diffNamesRes).2 ++ evG
        ++ [Ev.summary k cm]) s = true := by
      simp [okOrder_append, seenTag_append, h, okOrder_fp, seenTag_fp, hokG, hseenG, okOrder, seenTag]
    have hd2 : ∀ n, Ev.tagDelete n ∉ (tr ++ (find_plan_file env.diffNamesRes).2 ++ evG
        ++ [Ev.summary k cm]) := by
      simp [List.mem_append, hd, tagDelete_fp, hdG]
    cases hpc : parseConfirm env.confirm1 with
    | none => exact ⟨hok2, hd2⟩
    | some b =>
      cases b with
      | false => exact ⟨hok2, hd2⟩
      | true => exact stageSquash_inv env st _ cm s hok2 hd2

theorem stageStage_inv (env : Env) (st : GitState) (tr : List Ev) (k : Nat) (s : Bool)
    (h : okOrder tr s = true) (hd : ∀ n, Ev.tagDelete n ∉ tr) :
    okOrder (stageStage env st tr k).2.1 s = true ∧
      ∀ n, Ev.tagDelete n ∉ (stageStage env st tr k).2.1 := by
  unfold stageStage
  dsimp only
  have hok1 : okOrder (tr ++ (has_unstaged_changes env.diff1Res env.diff2Res).2) s = true := by
    simp [okOrder_append, h, okOrder_hu]
  have hd1 : ∀ n, Ev.tagDelete n ∉ (tr ++ (has_unstaged_changes env.diff1Res env.diff2Res).2) := by
    simp [List.mem_append, hd, tagDelete_hu]
  have hseen1 : seenTag (tr ++ (has_unstaged_changes env.diff1Res env.diff2Res).2) s
      = seenTag tr s := by
    simp [seenTag_append, seenTag_hu]
  split
  · split
    · exact ⟨hok1, hd1⟩
    · split
      · constructor
        · simp [okOrder_append, seenTag_append, okOrder, seenTag, h, okOrder_hu, seenTag_hu]
        · simp [List.mem_append, hd, tagDelete_hu]
      · apply stageMessage_inv
        · simp [okOrder_append, seenTag_append, okOrder, seenTag, h, okOrder_hu, seenTag_hu]
        · simp [List.mem_append, hd, tagDelete_hu]
  · exact stageMessage_inv env st _ k s hok1 hd1

theorem stageConflict_inv (env : Env) (st : GitState) (tr : List Ev) (k : Nat) (s : Bool)
    (h : okOrder tr s = true) (hd : ∀ n, Ev.tagDelete n ∉ tr) :
    okOrder (stageConflict env st tr k).2.1 s = true ∧
      ∀ n, Ev.tagDelete n ∉ (stageConflict env st tr k).2.1 := by
  unfold stageConflict
  dsimp only
  have hok1 : okOrder (tr ++ (has_merge_conflicts env.mergeTreeRes).2) s = true := by
    simp [okOrder_append, h, okOrder_hc]
  have hd1 : ∀ n, Ev.tagDelete n ∉ (tr ++ (has_merge_conflicts env.mergeTreeRes).2) := by
    simp [List.mem_append, hd, tagDelete_hc]
  split
  · exact ⟨hok1, hd1⟩
  · split
    · exact ⟨hok1, hd1⟩
    · exact stageStage_inv env st _ k s hok1 hd1

theorem stageWip_inv (env : Env) (st : GitState) (tr : List Ev)
    (commits : List (List Char)) (s : Bool)
    (h : okOrder tr s = true) (hd : ∀ n, Ev.tagDelete n ∉ tr) :
    okOrder (stageWip env st tr commits).2.1 s = true ∧
      ∀ n, Ev.tagDelete n ∉ (stageWip env st tr commits).2.1 := by
  unfold stageWip
  dsimp only
  split
  · exact ⟨h, hd⟩
  · split
    · split
      · constructor
        · simp [okOrder_append, seenTag_append, okOrder, seenTag, h]
        · simp [List.mem_append, hd]
      · split
        · split
          · constructor
            · simp [okOrder_append, seenTag_append, okOrder, seenTag, h]
            · simp [List.mem_append, hd]
          · constructor
            · simp [okOrder_append, seenTag_append, okOrder, seenTag, h]
            · simp [List.mem_append, hd]
        · constructor
          · simp [okOrder_append, seenTag_append, okOrder, seenTag, h]
          · simp [List.mem_append, hd]
    · exact stageConflict_inv env st _ _ s h hd

theorem mainBody_inv (env : Env) (st : GitState) :
    okOrder (mainBody env st).2.1 false = true ∧
      ∀ n, Ev.tagDelete n ∉ (mainBody env st).2.1 := by
  unfold mainBody
  dsimp only
  split
  · exact ⟨rfl, by simp⟩
  · split
    · exact ⟨rfl, by simp⟩
    · split
      · exact ⟨rfl, by simp⟩
      · split
        · exact ⟨rfl, by simp⟩
        · split
          · exact ⟨rfl, by simp⟩
          · split
            · constructor
              · simp [okOrder_append, seenTag_append, okOrder, seenTag, okOrder_gc, seenTag_gc]
              · simp [List.mem_append, tagDelete_gc]
            · split
              · constructor
                · simp [okOrder_append, seenTag_append, okOrder, seenTag, okOrder_gc, seenTag_gc]
                · simp [List.mem_append, tagDelete_gc]
              · apply stageWip_inv
                · simp [okOrder_append, seenTag_append, okOrder, seenTag, okOrder_gc, seenTag_gc]
                · simp [List.mem_append, tagDelete_gc]

theorem mainRun_eq_body (env : Env) (st : GitState) :
    (mainRun env st).2 = (mainBody env st).2 := by
  unfold mainRun
  rcases mainBody env st with ⟨out, tr, st'⟩
  cases out <;> rfl

theorem mainRun_of_dec {env : Env} {st : GitState} {d : Decision} {tr : List Ev}
    {st' : GitState} (h : mainBody env st = (.dec d, tr, st')) :
    mainRun env st = (d, tr, st') := by
  unfold mainRun
  rw [h]

theorem mainRun_of_exc {env : Env} {st : GitState} {e : String} {tr : List Ev}
    {st' : GitState} (h : mainBody env st = (.exc e, tr, st')) :
    mainRun env st = (.deny ("Hook error: " ++ e), tr, st') := by
  unfold mainRun
  rw [h]

/-! ## Reachability and squash-phase lemmas -/

theorem stageSquash_mono (env : Env) (st : GitState) (tr : List Ev) (m : String)
    (e : Ev) (he : e ∈ tr) : e ∈ (stageSquash env st tr m).2.1 := by
  unfold stageSquash
  dsimp only
  repeat' split
  all_goals simp [List.mem_append, he]

/-- On each of the three enumerated failure paths after tag creation
(interruption checkpoint, squash subprocess failure, validation failure)
the squash phase denies with a reason that contains the backup tag name,
and the tag-creation event is in the trace. -/
theorem stageSquash_fail_reports (env : Env) (st : GitState) (tr : List Ev) (m : String)
    (hrp : env.revParseFails = false) (htc : env.tagCreateFails = false)
    (hfail : env.interrupted2 = true ∨ env.resetSoftFails = true ∨
      (env.interrupted2 = false ∧ env.resetSoftFails = false ∧ env.commitSquashFails = true) ∨
      (env.interrupted2 = false ∧ env.resetSoftFails = false ∧ env.commitSquashFails = false ∧
        validate_squash env.revCountRes env.tagListRes
          ("backup/pre-squash-" ++ toString st.head ++ "-" ++ toString env.now) = false)) :
    ∃ t r', (stageSquash env st tr m).1 = .dec (.deny r') ∧
      Ev.tagCreate t ∈ (stageSquash env st tr m).2.1 ∧
      containsSub t.data r'.data = true := by
  unfold stageSquash
  dsimp only
  simp only [hrp, htc, Bool.false_eq_true, reduceIte]
  refine ⟨"backup/pre-squash-" ++ toString st.head ++ "-" ++ toString env.now, ?_⟩
  rcases hfail with hI | hRS | ⟨hI2, hRS2, hCS⟩ | ⟨hI2, hRS2, hCS2, hV⟩
  · simp only [hI, reduceIte]
    exact ⟨_, rfl, by simp, containsSub_str_append _ _⟩
  · cases hI2 : env.interrupted2 with
    | true =>
      simp only [hI2, reduceIte]
      exact ⟨_, rfl, by simp, containsSub_str_append _ _⟩
    | false =>
      simp only [hI2, hRS, Bool.false_eq_true, reduceIte]
      exact ⟨_, rfl, by simp, containsSub_str_append _ _⟩
  · simp only [hI2, hRS2, hCS, Bool.false_eq_true, reduceIte]
    exact ⟨_, rfl, by simp [List.mem_append], containsSub_str_append _ _⟩
  · simp only [hI2, hRS2, hCS2, hV, Bool.false_eq_true, Bool.not_false, reduceIte]
    exact ⟨_, rfl, by simp [List.mem_append], containsSub_str_append _ _⟩

/-- If the second confirmation is declined, the squash phase hard-resets to
the backup tag: the final decision is the cancellation denial and `HEAD`
ends up back at the commit the backup tag points at, which is the `HEAD` at
tag-creation time. -/
theorem stageSquash_rollback (env : Env) (st : GitState) (tr : List Ev) (m : String)
    (hrp : env.revParseFails = false) (htc : env.tagCreateFails = false)
    (hI2 : env.interrupted2 = false) (hRS : env.resetSoftFails = false)
    (hCS : env.commitSquashFails = false)
    (hV : validate_squash env.revCountRes env.tagListRes
      ("backup/pre-squash-" ++ toString st.head ++ "-" ++ toString env.now) = true)
    (hLS : env.logShowFails = false) (hC2 : parseConfirm env.confirm2 = some false)
    (hRH : env.resetHardFails = false) :
    (stageSquash env st tr m).1 = .dec (.deny "Squash cancelled - restored to original state") ∧
      (stageSquash env st tr m).2.2.head = st.head ∧
      ∃ tg, Ev.tagCreate tg ∈ (stageSquash env st tr m).2.1 ∧
        Ev.resetHard tg ∈ (stageSquash env st tr m).2.1 ∧
        (stageSquash env st tr m).2.2.tags.lookup tg = some st.head := by
  unfold stageSquash
  dsimp only
  simp only [hrp, htc, hI2, hRS, hCS, hV, hLS, hC2, hRH, Bool.false_eq_true,
    Bool.not_true, Bool.not_false, reduceIte]
  refine ⟨by trivial, ?_, ?_⟩
  · simp [doResetHard, doTag, doCommit, doResetSoftToOrigin, List.lookup]
  · refine ⟨"backup/pre-squash-" ++ toString st.head ++ "-" ++ toString env.now, ?_, ?_, ?_⟩
    · simp [List.mem_append]
    · simp [List.mem_append]
    · simp [doResetHard, doTag, doCommit, doResetSoftToOrigin, List.lookup]

/-- If the second confirmation is affirmative, the squash phase allows the
push, having squashed via `reset --soft` plus a single commit. -/
theorem stageSquash_confirm (env : Env) (st : GitState) (tr : List Ev) (m : String)
    (hrp : env.revParseFails = false) (htc : env.tagCreateFails = false)
    (hI2 : env.interrupted2 = false) (hRS : env.resetSoftFails = false)
    (hCS : env.commitSquashFails = false)
    (hV : validate_squash env.revCountRes env.tagListRes
      ("backup/pre-squash-" ++ toString st.head ++ "-" ++ toString env.now) = true)
    (hLS : env.logShowFails = false) (hC2 : parseConfirm env.confirm2 = some true) :
    (stageSquash env st tr m).1 = .dec .allow ∧
      Ev.commitCmd m ∈ (stageSquash env st tr m).2.1 ∧
      Ev.resetSoft ∈ (stageSquash env st tr m).2.1 := by
  unfold stageSquash
  dsimp only
  simp only [hrp, htc, hI2, hRS, hCS, hV, hLS, hC2, Bool.false_eq_true,
    Bool.not_true, Bool.not_false, reduceIte]
  exact ⟨by trivial, by simp [List.mem_append], by simp [List.mem_append]⟩

/-- Under the hypotheses that drive the workflow past the first
confirmation, `mainBody` is exactly the squash phase applied to the state
after the optional auto-commit and to the synthesized message. -/
theorem mainBody_reaches_squash (env : Env) (st : GitState) (inp : HookInput)
    (b f r m : String)
    (hver : env.gitVersionOk = true) (hstdin : env.stdin = .ok inp)
    (hpush : is_push_command inp.command = true)
    (hbr : env.branchRes = some b)
    (hbrname : (pyStrip b.data == "main".data || pyStrip b.data == "master".data) = true)
    (hf : env.fetchRes = .ok f) (hr : env.revListRes = .ok r)
    (hcne : commitsOf r ≠ []) (hwip : has_wip_commits (commitsOf r) = true)
    (hlen : (commitsOf r).length ≠ 1)
    (hconf : (has_merge_conflicts env.mergeTreeRes).1 = false)
    (hint1 : env.interrupted1 = false)
    (hadd : env.addFails = false) (hac : env.autoCommitFails = false)
    (hgen : (generate_commit_message env.planRead env.logSubjectsRes env.diffStatRes
      env.diffFullRes (find_plan_file env.diffNamesRes).1
      ((commitsOf r).length +
        (if (has_unstaged_changes env.diff1Res env.diff2Res).1 then 1 else 0))).1 = .ok m)
    (hcf1 : parseConfirm env.confirm1 = some true) :
    ∃ tr', mainBody env st =
      stageSquash env
        (if (has_unstaged_changes env.diff1Res env.diff2Res).1 then
          doCommit "WIP: auto-commit unstaged changes" st else st) tr' m := by
  unfold mainBody
  simp only [hver, hstdin, Bool.not_true, Bool.false_eq_true, reduceIte]
  simp only [hpush, Bool.not_true, Bool.false_eq_true, reduceIte]
  simp only [hbr]
  try dsimp only
  simp only [hbrname, Bool.not_true, Bool.false_eq_true, reduceIte]
  simp only [hf, hr]
  unfold get_commits_to_push
  dsimp only
  rw [if_neg hcne]
  unfold stageWip
  dsimp only
  simp only [hwip, Bool.not_true, Bool.false_eq_true, reduceIte]
  rw [if_neg hlen]
  unfold stageConflict
  dsimp only
  simp only [hconf, hint1, Bool.false_eq_true, reduceIte]
  unfold stageStage
  dsimp only
  cases hu : (has_unstaged_changes env.diff1Res env.diff2Res).1 with
  | true =>
    rw [hu] at hgen
    simp only [reduceIte] at hgen
    simp only [hu, hadd, hac, Bool.false_eq_true, reduceIte]
    unfold stageMessage
    dsimp only
    rcases hg : generate_commit_message env.planRead env.logSubjectsRes env.diffStatRes
        env.diffFullRes (find_plan_file env.diffNamesRes).1
        ((commitsOf r).length + 1) with ⟨res, evG⟩
    rw [hg] at hgen
    simp only at hgen
    subst hgen
    try dsimp only
    rw [hcf1]
    try dsimp only
    exact ⟨_, rfl⟩
  | false =>
    rw [hu] at hgen
    simp only [Bool.false_eq_true, reduceIte, Nat.add_zero] at hgen
    simp only [hu, Bool.false_eq_true, reduceIte]
    unfold stageMessage
    dsimp only
    rcases hg : generate_commit_message env.planRead env.logSubjectsRes env.diffStatRes
        env.diffFullRes (find_plan_file env.diffNamesRes).1
        (commitsOf r).length with ⟨res, evG⟩
    rw [hg] at hgen
    simp only at hgen
    subst hgen
    try dsimp only
    rw [hcf1]
    try dsimp only
    exact ⟨_, rfl⟩

theorem mainRun_fst {env : Env} {st : GitState} {d : Decision}
    (h : (mainBody env st).1 = .dec d) : (mainRun env st).1 = d := by
  unfold mainRun
  rcases hm : mainBody env st with ⟨out, tr2, st2⟩
  rw [hm] at h
  dsimp at h
  subst h
  rfl

theorem pyReplaceFirst_strip (old rest : List Char) (ho : old ≠ []) :
    pyReplaceFirst old [] (old ++ rest) = rest := by
  unfold pyReplaceFirst
  rw [if_neg ho]
  cases old with
  | nil => exact absurd rfl ho
  | cons a as =>
    simp only [List.cons_append]
    have hpre : (a :: as).isPrefixOf (a :: (as ++ rest)) = true := by
      have := isPrefixOf_append_self (a :: as) rest
      simpa using this
    rw [hpre]
    simp only [reduceIte, List.nil_append, List.length_cons, List.drop_succ_cons]
    exact List.drop_left as rest

theorem intercalate_nil (sep : List Char) : List.intercalate sep [] = [] := rfl

theorem intercalate_single (sep x : List Char) : List.intercalate sep [x] = x := by
  simp [List.intercalate, List.intersperse]

theorem intercalate_cons₂ (sep x y : List Char) (zs : List (List Char)) :
    List.intercalate sep (x :: y :: zs) = x ++ sep ++ List.intercalate sep (y :: zs) := by
  simp [List.intercalate, List.intersperse]

theorem mem_intercalate_infix :
    ∀ (parts : List (List Char)) (sep x : List Char), x ∈ parts →
      ∃ pre suf, List.intercalate sep parts = pre ++ (x ++ suf) := by
  intro parts
  induction parts with
  | nil => intro sep x hx; exact absurd hx (by simp)
  | cons p ps ih =>
    intro sep x hx
    rcases List.mem_cons.mp hx with rfl | hx'
    · cases ps with
      | nil => exact ⟨[], [], by simp [intercalate_single]⟩
      | cons q qs =>
        exact ⟨[], sep ++ List.intercalate sep (q :: qs), by
          rw [intercalate_cons₂]; simp⟩
    · obtain ⟨pre, suf, hdecomp⟩ := ih sep x hx'
      cases ps with
      | nil => exact absurd hx' (by simp)
      | cons q qs =>
        refine ⟨p ++ sep ++ pre, suf, ?_⟩
        rw [intercalate_cons₂, hdecomp]
        simp

/-- Under the hypotheses that drive the workflow to message synthesis, the
pre-push summary event — carrying the WIP count actually used — is in the
trace, and the count is the full commit count plus one for the optional
auto-commit. -/
theorem mainBody_summary (env : Env) (st : GitState) (inp : HookInput)
    (b f r m : String)
    (hver : env.gitVersionOk = true) (hstdin : env.stdin = .ok inp)
    (hpush : is_push_command inp.command = true)
    (hbr : env.branchRes = some b)
    (hbrname : (pyStrip b.data == "main".data || pyStrip b.data == "master".data) = true)
    (hf : env.fetchRes = .ok f) (hr : env.revListRes = .ok r)
    (hcne : commitsOf r ≠ []) (hwip : has_wip_commits (commitsOf r) = true)
    (hlen : (commitsOf r).length ≠ 1)
    (hconf : (has_merge_conflicts env.mergeTreeRes).1 = false)
    (hint1 : env.interrupted1 = false)
    (hadd : env.addFails = false) (hac : env.autoCommitFails = false)
    (hgen : (generate_commit_message env.planRead env.logSubjectsRes env.diffStatRes
      env.diffFullRes (find_plan_file env.diffNamesRes).1
      ((commitsOf r).length +
        (if (has_unstaged_changes env.diff1Res env.diff2Res).1 then 1 else 0))).1 = .ok m) :
    Ev.summary ((commitsOf r).length +
        (if (has_unstaged_changes env.diff1Res env.diff2Res).1 then 1 else 0)) m
      ∈ (mainBody env st).2.1 := by
  unfold mainBody
  simp only [hver, hstdin, Bool.not_true, Bool.false_eq_true, reduceIte]
  simp only [hpush, Bool.not_true, Bool.false_eq_true, reduceIte]
  simp only [hbr]
  try dsimp only
  simp only [hbrname, Bool.not_true, Bool.false_eq_true, reduceIte]
  simp only [hf, hr]
  unfold get_commits_to_push
  dsimp only
  rw [if_neg hcne]
  unfold stageWip
  dsimp only
  simp only [hwip, Bool.not_true, Bool.false_eq_true, reduceIte]
  rw [if_neg hlen]
  unfold stageConflict
  dsimp only
  simp only [hconf, hint1, Bool.false_eq_true, reduceIte]
  unfold stageStage
  dsimp only
  cases hu : (has_unstaged_changes env.diff1Res env.diff2Res).1 with
  | true =>
    rw [hu] at hgen
    simp only [reduceIte] at hgen
    simp only [hu, hadd, hac, Bool.false_eq_true, reduceIte]
    unfold stageMessage
    dsimp only
    rcases hg : generate_commit_message env.planRead env.logSubjectsRes env.diffStatRes
        env.diffFullRes (find_plan_file env.diffNamesRes).1
        ((commitsOf r).length + 1) with ⟨res, evG⟩
    rw [hg] at hgen
    simp only at hgen
    subst hgen
    try dsimp only
    cases hpc : parseConfirm env.confirm1 with
    | none => simp
    | some bb =>
      cases bb with
      | false => simp
      | true =>
        apply stageSquash_mono
        simp
  | false =>
    rw [hu] at hgen
    simp only [Bool.false_eq_true, reduceIte, Nat.add_zero] at hgen
    simp only [hu, Bool.false_eq_true, reduceIte, Nat.add_zero]
    unfold stageMessage
    dsimp only
    rcases hg : generate_commit_message env.planRead env.logSubjectsRes env.diffStatRes
        env.diffFullRes (find_plan_file env.diffNamesRes).1
        (commitsOf r).length with ⟨res, evG⟩
    rw [hg] at hgen
    simp only at hgen
    subst hgen
    try dsimp only
    cases hpc : parseConfirm env.confirm1 with
    | none => simp
    | some bb =>
      cases bb with
      | false => simp
      | true =>
        apply stageSquash_mono
        simp

/-! ## Claim theorems -/

/-- C3: `validate_squash(backup_tag)` returns true if and only if the
`rev-list --count origin/main..HEAD` query succeeds and its output parses
to exactly 1, and the `tag -l` query succeeds with the named backup tag
occurring in its output; in every other case, including failure of either
underlying git query or an unparsable count, it returns false. -/
theorem C3_validate_squash_iff (a b : Option String) (t : String) :
    validate_squash a b t = true ↔
      ((∃ out, a = some out ∧ pyInt (pyStrip out.data) = some 1) ∧
       (∃ tout, b = some tout ∧ containsSub t.data tout.data = true)) := by
  cases a with
  | none => simp [validate_squash]
  | some out =>
    cases h : pyInt (pyStrip out.data) with
    | none => simp [validate_squash, h]
    | some k =>
      cases b with
      | none => simp [validate_squash, h]
      | some tout =>
        by_cases hk : k = (1 : Int)
        · by_cases ht : containsSub t.data tout.data = true
          · simp [validate_squash, h, hk, ht]
          · simp only [Bool.not_eq_true] at ht
            simp [validate_squash, h, hk, ht]
        · simp [validate_squash, h, hk]

/-- C8: `has_wip_commits` returns true exactly for commit lists containing
an entry that has a space and whose text after the first space starts with
`WIP: ` or `WIP:`; it returns false for lists with no such entry. -/
theorem C8_has_wip_commits_iff (commits : List (List Char)) :
    has_wip_commits commits = true ↔
      ∃ c ∈ commits, ∃ msg, afterFirstSpace c = some msg ∧
        ("WIP: ".data.isPrefixOf msg = true ∨ "WIP:".data.isPrefixOf msg = true) := by
  unfold has_wip_commits
  rw [List.any_eq_true]
  constructor
  · rintro ⟨c, hc, hw⟩
    refine ⟨c, hc, ?_⟩
    unfold wipEntry at hw
    cases hsp : afterFirstSpace c with
    | none => rw [hsp] at hw; exact absurd hw (by simp)
    | some msg =>
      rw [hsp] at hw
      exact ⟨msg, rfl, by simpa using hw⟩
  · rintro ⟨c, hc, msg, hsp, hpre⟩
    refine ⟨c, hc, ?_⟩
    unfold wipEntry
    rw [hsp]
    rcases hpre with h | h <;> simp [h]

theorem shouldDeleteTag_iff (now : Nat) (t : List Char) :
    shouldDeleteTag now t = true ↔
      ((pySplitChar '-' t).length ≥ 4 ∧
        ∃ lp ts, (pySplitChar '-' t).getLast? = some lp ∧ pyInt lp = some ts ∧
          (now : Int) - ts < 300) := by
  unfold shouldDeleteTag
  by_cases h4 : (pySplitChar '-' t).length ≥ 4
  · rw [if_pos h4]
    cases hl : (pySplitChar '-' t).getLast? with
    | none => simp [hl]
    | some lp =>
      cases hp : pyInt lp with
      | none => simp [hl, hp]
      | some ts => simp [hl, hp, h4]
  · rw [if_neg h4]
    simp [h4]

/-- C9: the post-push cleanup deletes a backup tag exactly when the input
parsed, the command is a push, the reported exit code (defaulting to 0)
is 0, and the tag is a nonempty listed tag with at least four dash-parts
whose numeric final part is less than 300 seconds before the current time;
in particular a tag 300 or more seconds old, a tag with a non-numeric
timestamp, or any tag observed after a failed push is never deleted. -/
theorem C9_cleanup_deletes_iff (stdinRes : Except String CleanupInput)
    (tagsOut : Option String) (now : Nat) (t : List Char) :
    (t ∈ cleanupMain stdinRes tagsOut now ↔
      ∃ inp, stdinRes = .ok inp ∧ cleanupIsPush inp.command = true ∧
        inp.exitCode.getD 0 = 0 ∧
        ∃ out, tagsOut = some out ∧ pyStrip out.data ≠ [] ∧
          t ∈ pySplitChar '\n' (pyStrip out.data) ∧ t ≠ [] ∧
          (pySplitChar '-' t).length ≥ 4 ∧
          ∃ lp ts, (pySplitChar '-' t).getLast? = some lp ∧
            pyInt lp = some ts ∧ (now : Int) - ts < 300) ∧
    (∀ inp, stdinRes = .ok inp → inp.exitCode.getD 0 ≠ 0 →
      cleanupMain stdinRes tagsOut now = []) := by
  constructor
  · cases stdinRes with
    | error e => simp [cleanupMain]
    | ok inp =>
      unfold cleanupMain
      dsimp only
      by_cases hp : cleanupIsPush inp.command = true
      · by_cases he : inp.exitCode.getD 0 = 0
        · rw [if_pos (by simp [hp, he])]
          unfold delete_backup_tags
          cases tagsOut with
          | none => simp
          | some out =>
            dsimp only
            by_cases hs : pyStrip out.data = []
            · simp [hs]
            · rw [if_neg hs]
              simp only [List.mem_filter, Bool.and_eq_true, decide_eq_true_eq,
                shouldDeleteTag_iff]
              constructor
              · rintro ⟨hmem, hne, h4, rest⟩
                exact ⟨inp, rfl, hp, he, out, rfl, hs, hmem, hne, h4, rest⟩
              · rintro ⟨inp', hinp', _, _, out', hout', _, hmem, hne, h4, rest⟩
                cases hout'
                exact ⟨hmem, hne, h4, rest⟩
        · rw [if_neg (by simp [he])]
          constructor
          · simp
          · rintro ⟨inp', hinp', _, he', _⟩
            cases hinp'
            exact absurd he' he
      · rw [if_neg (by simp [hp])]
        constructor
        · simp
        · rintro ⟨inp', hinp', hp', _⟩
          cases hinp'
          exact absurd hp' hp
  · intro inp hinp hne
    subst hinp
    unfold cleanupMain
    dsimp only
    rw [if_neg (by simp [hne])]

theorem spacesPlus_cons_space (rest : List Char)
    (h : rest.takeWhile pyIsSpace = []) : spacesPlus (' ' :: rest) = some rest := by
  unfold spacesPlus
  have hsp : pyIsSpace ' ' = true := by decide
  simp [List.takeWhile_cons, hsp, h]

theorem takeWhile_push_append (J : List Char) :
    (("push".data ++ J).takeWhile pyIsSpace) = [] := by
  have hd : "push".data = 'p' :: "ush".data := rfl
  have hp : pyIsSpace 'p' = false := by decide
  rw [hd]
  simp [List.takeWhile_cons, hp]

theorem takeWhile_git_append (J : List Char) :
    (("git".data ++ J).takeWhile pyIsSpace) = [] := by
  have hd : "git".data = 'g' :: "it".data := rfl
  have hp : pyIsSpace 'g' = false := by decide
  rw [hd]
  simp [List.takeWhile_cons, hp]

theorem matchGitPush_grammar (J : List Char)
    (hJ : argAccept (J.foldl argStep (some .boundary)) = true) :
    matchGitPush ("git push".data ++ J) = true := by
  unfold matchGitPush
  have e1 : "git push".data ++ J = "git".data ++ (' ' :: ("push".data ++ J)) := by
    have : "git push".data = "git".data ++ (' ' :: "push".data) := rfl
    rw [this]
    simp
  rw [e1, matchLit_append_self]
  dsimp only
  rw [spacesPlus_cons_space _ (takeWhile_push_append J)]
  dsimp only
  rw [matchLit_append_self]
  dsimp only
  unfold matchArgGroups
  rw [hJ]
  simp

theorem matchJjGitPush_grammar (J : List Char)
    (hJ : argAccept (J.foldl argStep (some .boundary)) = true) :
    matchJjGitPush ("jj git push".data ++ J) = true := by
  unfold matchJjGitPush
  have e1 : "jj git push".data ++ J
      = "jj".data ++ (' ' :: ("git".data ++ (' ' :: ("push".data ++ J)))) := by
    have : "jj git push".data
        = "jj".data ++ (' ' :: ("git".data ++ (' ' :: "push".data))) := rfl
    rw [this]
    simp
  rw [e1, matchLit_append_self]
  dsimp only
  rw [spacesPlus_cons_space _ (takeWhile_git_append _)]
  dsimp only
  rw [matchLit_append_self]
  dsimp only
  rw [spacesPlus_cons_space _ (takeWhile_push_append J)]
  dsimp only
  rw [matchLit_append_self]
  dsimp only
  unfold matchArgGroups
  rw [hJ]
  simp

theorem lit_git_chars : ∀ c ∈ "git".data, (pyIsSpace c || isArgChar c) = true := by
  have hd : "git".data = ['g', 'i', 't'] := rfl
  rw [hd]
  intro c hc
  simp only [List.mem_cons, List.not_mem_nil, or_false] at hc
  rcases hc with rfl | rfl | rfl <;> decide

theorem lit_push_chars : ∀ c ∈ "push".data, (pyIsSpace c || isArgChar c) = true := by
  have hd : "push".data = ['p', 'u', 's', 'h'] := rfl
  rw [hd]
  intro c hc
  simp only [List.mem_cons, List.not_mem_nil, or_false] at hc
  rcases hc with rfl | rfl | rfl | rfl <;> decide

theorem lit_jj_chars : ∀ c ∈ "jj".data, (pyIsSpace c || isArgChar c) = true := by
  have hd : "jj".data = ['j', 'j'] := rfl
  rw [hd]
  intro c hc
  simp only [List.mem_cons, List.not_mem_nil, or_false] at hc
  rcases hc with rfl | rfl <;> decide

theorem matchGitPush_chars (s : List Char) (h : matchGitPush s = true) :
    ∀ c ∈ s, (pyIsSpace c || isArgChar c) = true := by
  unfold matchGitPush at h
  cases h1 : matchLit "git".data s with
  | none => rw [h1] at h; exact absurd h (by simp)
  | some r1 =>
    rw [h1] at h
    dsimp only at h
    cases h2 : spacesPlus r1 with
    | none => rw [h2] at h; exact absurd h (by simp)
    | some r2 =>
      rw [h2] at h
      dsimp only at h
      cases h3 : matchLit "push".data r2 with
      | none => rw [h3] at h; exact absurd h (by simp)
      | some r3 =>
        rw [h3] at h
        dsimp only at h
        obtain ⟨sp, hr1, _, hsp⟩ := spacesPlus_eq_some r1 r2 h2
        have hs : s = "git".data ++ (sp ++ ("push".data ++ r3)) := by
          rw [matchLit_eq_some _ _ _ h1, hr1, matchLit_eq_some _ _ _ h3]
        intro c hc
        rw [hs] at hc
        rcases List.mem_append.mp hc with hg | hc2
        · exact lit_git_chars c hg
        · rcases List.mem_append.mp hc2 with hsp' | hc3
          · rw [hsp c hsp']; simp
          · rcases List.mem_append.mp hc3 with hp | hr
            · exact lit_push_chars c hp
            · exact matchArgGroups_chars r3 h c hr

theorem matchJjGitPush_chars (s : List Char) (h : matchJjGitPush s = true) :
    ∀ c ∈ s, (pyIsSpace c || isArgChar c) = true := by
  unfold matchJjGitPush at h
  cases h0 : matchLit "jj".data s with
  | none => rw [h0] at h; exact absurd h (by simp)
  | some r0 =>
    rw [h0] at h
    dsimp only at h
    cases h1 : spacesPlus r0 with
    | none => rw [h1] at h; exact absurd h (by simp)
    | some r1 =>
      rw [h1] at h
      dsimp only at h
      cases h2 : matchLit "git".data r1 with
      | none => rw [h2] at h; exact absurd h (by simp)
      | some r2 =>
        rw [h2] at h
        dsimp only at h
        cases h3 : spacesPlus r2 with
        | none => rw [h3] at h; exact absurd h (by simp)
        | some r3 =>
          rw [h3] at h
          dsimp only at h
          cases h4 : matchLit "push".data r3 with
          | none => rw [h4] at h; exact absurd h (by simp)
          | some r4 =>
            rw [h4] at h
            dsimp only at h
            obtain ⟨sp1, hr0, _, hsp1⟩ := spacesPlus_eq_some r0 r1 h1
            obtain ⟨sp2, hr2, _, hsp2⟩ := spacesPlus_eq_some r2 r3 h3
            have hs : s = "jj".data ++ (sp1 ++ ("git".data ++ (sp2 ++ ("push".data ++ r4)))) := by
              rw [matchLit_eq_some _ _ _ h0, hr0, matchLit_eq_some _ _ _ h2, hr2,
                matchLit_eq_some _ _ _ h4]
            intro c hc
            rw [hs] at hc
            rcases List.mem_append.mp hc with hj | hc2
            · exact lit_jj_chars c hj
            · rcases List.mem_append.mp hc2 with hsp' | hc3
              · rw [hsp1 c hsp']; simp
              · rcases List.mem_append.mp hc3 with hg | hc4
                · exact lit_git_chars c hg
                · rcases List.mem_append.mp hc4 with hsp' | hc5
                  · rw [hsp2 c hsp']; simp
                  · rcases List.mem_append.mp hc5 with hp | hr
                    · exact lit_push_chars c hp
                    · exact matchArgGroups_chars r4 h c hr

theorem is_push_command_chars (s : String) (h : is_push_command s = true) :
    ∀ c ∈ s.data, (pyIsSpace c || isArgChar c) = true := by
  unfold is_push_command at h
  rcases Bool.or_eq_true _ _ |>.mp h with hg | hj
  · exact matchGitPush_chars s.data hg
  · exact matchJjGitPush_chars s.data hj

/-- C2: (i) every command generated by the push grammar (literal `git push`
or `jj git push` followed by whitespace-separated `[/\w\-]+` arguments) is
classified as a push; (ii) every command containing `;`, `&&` or `|` is
classified as not-a-push; (iii) a command classified as not-a-push makes
the workflow emit an allow decision immediately, with no git query beyond
the `git --version` dependency check and the repository state untouched. -/
theorem C2_push_classifier :
    (∀ s : String, pushGrammar s → is_push_command s = true) ∧
    (∀ s : String,
      (containsSub ";".data s.data || containsSub "&&".data s.data
        || containsSub "|".data s.data) = true →
      is_push_command s = false) ∧
    (∀ (env : Env) (st : GitState) (inp : HookInput),
      env.gitVersionOk = true → env.stdin = .ok inp →
      is_push_command inp.command = false →
      mainRun env st = (.allow, [.version], st)) := by
  refine ⟨?_, ?_, ?_⟩
  · rintro s ⟨gs, hgs, hform | hform⟩
    · have hJ := groups_fold gs .boundary hgs (Or.inl rfl)
      unfold is_push_command
      rw [hform, matchGitPush_grammar _ hJ]
      simp
    · have hJ := groups_fold gs .boundary hgs (Or.inl rfl)
      unfold is_push_command
      rw [hform, matchJjGitPush_grammar _ hJ]
      simp
  · intro s hmeta
    cases hip : is_push_command s with
    | false => rfl
    | true =>
      exfalso
      have hall := is_push_command_chars s hip
      rcases Bool.or_eq_true _ _ |>.mp hmeta with hm | hm
      · rcases Bool.or_eq_true _ _ |>.mp hm with hm' | hm'
        · have hmem : ';' ∈ s.data := containsSub_head_mem ';' [] s.data hm'
          have := hall ';' hmem
          exact absurd this (by decide)
        · have hmem : '&' ∈ s.data := containsSub_head_mem '&' ['&'] s.data hm'
          have := hall '&' hmem
          exact absurd this (by decide)
      · have hmem : '|' ∈ s.data := containsSub_head_mem '|' [] s.data hm
        have := hall '|' hmem
        exact absurd this (by decide)
  · intro env st inp hver hstdin hpush
    have hbody : mainBody env st = (.dec .allow, [.version], st) := by
      unfold mainBody
      simp only [hver, hstdin, Bool.not_true, Bool.false_eq_true, reduceIte]
      simp only [hpush, Bool.not_false, reduceIte]
    exact mainRun_of_dec hbody

/-- C2 witness: the theorem instantiated at concrete inputs — the grammar
string `git push origin main` is classified as a push, the injection
string is not, and a not-a-push command yields an immediate allow. -/
theorem C2_push_classifier_witness :
    is_push_command "git push origin main" = true ∧
    is_push_command "git push; rm -rf /" = false ∧
    mainRun { envBase with stdin := .ok ⟨"echo hi"⟩ } stBase = (.allow, [.version], stBase) := by
  refine ⟨?_, ?_, ?_⟩
  · apply C2_push_classifier.1
    refine ⟨[([' '], "origin".data), ([' '], "main".data)], ?_, Or.inl (by decide)⟩
    intro p hp
    simp only [List.mem_cons, List.not_mem_nil, or_false] at hp
    rcases hp with rfl | rfl
    · exact ⟨⟨by decide, by decide⟩, ⟨by decide, by decide⟩⟩
    · exact ⟨⟨by decide, by decide⟩, ⟨by decide, by decide⟩⟩
  · apply C2_push_classifier.2.1
    decide
  · apply C2_push_classifier.2.2
    · rfl
    · rfl
    · decide

/-- C9 witness: the characterization instantiated concretely — a fresh tag
after a successful push is deleted, and nothing is deleted after a push
that reported a nonzero exit code. -/
theorem C9_cleanup_deletes_iff_witness :
    "backup/pre-squash-ab12-900".data ∈
      cleanupMain (.ok ⟨"git push", some 0⟩) (some "backup/pre-squash-ab12-900") 1000 ∧
    cleanupMain (.ok ⟨"git push", some 1⟩) (some "backup/pre-squash-ab12-900") 1000 = [] := by
  constructor
  · exact (C9_cleanup_deletes_iff (.ok ⟨"git push", some 0⟩)
      (some "backup/pre-squash-ab12-900") 1000 "backup/pre-squash-ab12-900".data).1.mpr
      ⟨⟨"git push", some 0⟩, rfl, by decide, by decide, "backup/pre-squash-ab12-900",
        rfl, by decide, by decide, by decide, by decide, "900".data, 900, by decide,
        by decide, by decide⟩
  · exact (C9_cleanup_deletes_iff (.ok ⟨"git push", some 1⟩)
      (some "backup/pre-squash-ab12-900") 1000 "backup/pre-squash-ab12-900".data).2
      ⟨"git push", some 1⟩ rfl (by decide)

/-- C5 counterexample: contrary to the claim, a failing (nonzero-exit)
unstaged-diff check yields `true` (changes present), not `false`; and a
completed `merge-tree` invocation with a failing exit status and empty
output yields `false` (no conflicts), not `true`. -/
theorem C5_counterexample :
    (has_unstaged_changes .fail (.ok "")).1 = true ∧
    (has_merge_conflicts (.completed 128 "")).1 = false := by
  exact ⟨rfl, by decide⟩

/-- C5 (amended): a remote-fetch timeout denies the whole workflow with the
network-failure reason; an unstaged-diff TIMEOUT is treated as a clean tree
(false) while a nonzero diff exit is treated as changes present (true); a
merge-conflict TIMEOUT is treated as conflicts present (true) while a
completed `merge-tree` invocation takes its conflict status from scanning
the captured stdout for markers, regardless of its exit status. -/
theorem C5_subcheck_policy :
    (∀ (env : Env) (st : GitState) (inp : HookInput) (b : String),
      env.gitVersionOk = true → env.stdin = .ok inp →
      is_push_command inp.command = true → env.branchRes = some b →
      (pyStrip b.data == "main".data || pyStrip b.data == "master".data) = true →
      env.fetchRes = .timeout →
      (mainRun env st).1 = .deny "Fetch timeout - check network connection (waited 60s)") ∧
    (∀ d, (has_unstaged_changes .timeout d).1 = false) ∧
    (∀ d, (has_unstaged_changes .fail d).1 = true) ∧
    (∀ o, (has_unstaged_changes (.ok o) .timeout).1 = false) ∧
    (∀ o, (has_unstaged_changes (.ok o) .fail).1 = true) ∧
    (∀ o o2, (has_unstaged_changes (.ok o) (.ok o2)).1 = false) ∧
    ((has_merge_conflicts .timeout).1 = true) ∧
    (∀ c out, (has_merge_conflicts (.completed c out)).1 = markerScan out) := by
  refine ⟨?_, fun d => rfl, fun d => rfl, fun o => rfl, fun o => rfl,
    fun o o2 => rfl, rfl, fun c out => rfl⟩
  intro env st inp b hver hstdin hpush hbr hbrname hf
  apply mainRun_fst
  unfold mainBody
  simp only [hver, hstdin, Bool.not_true, Bool.false_eq_true, reduceIte]
  simp only [hpush, Bool.not_true, Bool.false_eq_true, reduceIte]
  simp only [hbr]
  try dsimp only
  simp only [hbrname, Bool.not_true, Bool.false_eq_true, reduceIte]
  simp only [hf]
  unfold get_commits_to_push
  try dsimp only

/-- C5 witness: the amended theorem instantiated at a concrete timed-out
fetch. -/
theorem C5_subcheck_policy_witness :
    (mainRun { envBase with fetchRes := .timeout } stBase).1 =
      .deny "Fetch timeout - check network connection (waited 60s)" := by
  exact C5_subcheck_policy.1 { envBase with fetchRes := .timeout } stBase
    ⟨"git push"⟩ "main" rfl rfl (by decide) rfl (by decide) rfl

/-- C6 counterexample: a run with exactly one WIP-prefixed commit among the
two commits to push does not take the fast path and does not allow
immediately — it proceeds to the conflict check and is denied there. -/
theorem C6_counterexample :
    (commitsOf "a1 WIP: x\nb2 fix y").countP wipEntry = 1 ∧
    (commitsOf "a1 WIP: x\nb2 fix y").length = 2 ∧
    (mainRun { envBase with revListRes := .ok "a1 WIP: x\nb2 fix y", mergeTreeRes := .completed 0 "<<<<<" } stBase).1 =
      .deny "❌ Merge conflicts with origin/main\nResolve conflicts first: git rebase origin/main" := by
  refine ⟨by decide, by decide, by decide⟩

/-- C6 (amended): whenever there is exactly one commit to push and it
carries the WIP prefix, the workflow allows immediately via the fast path,
amending the commit so that the message `WIP: <text>` becomes `<text>`,
with no backup tag created and no squash performed. -/
theorem C6_single_wip_fast_path (env : Env) (st : GitState) (inp : HookInput)
    (b f r : String) (c : List Char) (tcs : List Char)
    (hver : env.gitVersionOk = true) (hstdin : env.stdin = .ok inp)
    (hpush : is_push_command inp.command = true)
    (hbr : env.branchRes = some b)
    (hbrname : (pyStrip b.data == "main".data || pyStrip b.data == "master".data) = true)
    (hf : env.fetchRes = .ok f) (hr : env.revListRes = .ok r)
    (hc : commitsOf r = [c]) (hwipc : wipEntry c = true)
    (hlog : env.logHeadFails = false)
    (hmsg : pyStrip (headMsg st).data = "WIP: ".data ++ tcs)
    (hamend : env.amendFails = false) :
    (mainRun env st).1 = .allow ∧
    headMsg (mainRun env st).2.2 = String.mk tcs ∧
    (∀ n, Ev.tagCreate n ∉ (mainRun env st).2.1) ∧
    Ev.resetSoft ∉ (mainRun env st).2.1 ∧
    (mainRun env st).2.2.tags = st.tags := by
  have hmb : ∃ TR, mainBody env st = (.dec .allow, TR, doAmend (String.mk tcs) st) ∧
      (∀ n, Ev.tagCreate n ∉ TR) ∧ Ev.resetSoft ∉ TR := by
    unfold mainBody
    simp only [hver, hstdin, Bool.not_true, Bool.false_eq_true, reduceIte]
    simp only [hpush, Bool.not_true, Bool.false_eq_true, reduceIte]
    simp only [hbr]
    try dsimp only
    simp only [hbrname, Bool.not_true, Bool.false_eq_true, reduceIte]
    simp only [hf, hr]
    unfold get_commits_to_push
    try dsimp only
    rw [hc]
    rw [if_neg (by simp)]
    unfold stageWip
    have hwip1 : has_wip_commits [c] = true := by simp [has_wip_commits, hwipc]
    simp only [hwip1, Bool.not_true, Bool.false_eq_true, reduceIte, List.length_cons,
      List.length_nil, Nat.zero_add, hlog]
    try dsimp only
    rw [hmsg]
    simp only [isPrefixOf_append_self, hamend, reduceIte, Bool.false_eq_true]
    rw [pyReplaceFirst_strip _ _ (by decide)]
    exact ⟨_, rfl, by simp, by simp⟩
  obtain ⟨TR, hmb, hnt, hnr⟩ := hmb
  have hrun := mainRun_of_dec hmb
  rw [hrun]
  refine ⟨rfl, ?_, hnt, hnr, rfl⟩
  simp [headMsg, doAmend, List.lookup]

/-- C6 witness: the amended fast path at a concrete single WIP commit. -/
theorem C6_single_wip_fast_path_witness :
    (mainRun { envBase with revListRes := .ok "a1 WIP: y" } stBase).1 = .allow ∧
    headMsg (mainRun { envBase with revListRes := .ok "a1 WIP: y" } stBase).2.2 = "y" := by
  have h := C6_single_wip_fast_path { envBase with revListRes := .ok "a1 WIP: y" } stBase
    ⟨"git push"⟩ "main" "" "a1 WIP: y" "a1 WIP: y".data "y".data
    rfl rfl (by decide) rfl (by decide) rfl rfl (by decide) (by decide) rfl (by decide) rfl
  exact ⟨h.1, h.2.1⟩

/-- C7: on every modelled input the hook emits a single decision payload
whose `permissionDecision` is `allow` or `deny` and exits with status 0;
an exception escaping the body is converted by the top-level handler into
the generic `Hook error` denial, malformed JSON into a parse-error denial,
and a missing git binary into a dependency denial. -/
theorem C7_output_contract :
    (∀ (env : Env) (st : GitState), (renderDecision (mainRun env st).1).2 = 0 ∧
      ((renderDecision (mainRun env st).1).1.permissionDecision = "allow" ∨
       (renderDecision (mainRun env st).1).1.permissionDecision = "deny")) ∧
    (∀ (env : Env) (st : GitState) (e : String) (tr : List Ev) (st' : GitState),
      mainBody env st = (.exc e, tr, st') →
      (mainRun env st).1 = .deny ("Hook error: " ++ e)) ∧
    (∀ (env : Env) (st : GitState) (e : String),
      env.gitVersionOk = true → env.stdin = .error e →
      (mainRun env st).1 = .deny ("Error parsing hook input: " ++ e)) ∧
    (∀ (env : Env) (st : GitState), env.gitVersionOk = false →
      (mainRun env st).1 = .deny "Git command not found - please install git") := by
  refine ⟨?_, ?_, ?_, ?_⟩
  · intro env st
    rcases (mainRun env st).1 with _ | reason <;> simp [renderDecision]
  · intro env st e tr st' h
    rw [mainRun_of_exc h]
  · intro env st e hver hstdin
    apply mainRun_fst
    unfold mainBody
    simp only [hver, Bool.not_true, Bool.false_eq_true, reduceIte, hstdin]
  · intro env st hver
    apply mainRun_fst
    unfold mainBody
    simp only [hver, Bool.not_false, reduceIte]

/-- C7 witness: the contract instantiated at a run with malformed JSON on
standard input. -/
theorem C7_output_contract_witness :
    (mainRun { envBase with stdin := .error "Expecting value" } stBase).1 =
      .deny ("Error parsing hook input: " ++ "Expecting value") ∧
    (renderDecision (mainRun { envBase with stdin := .error "Expecting value" } stBase).1).2 = 0 := by
  refine ⟨?_, (C7_output_contract.1 { envBase with stdin := .error "Expecting value" } stBase).1⟩
  exact C7_output_contract.2.2.1 { envBase with stdin := .error "Expecting value" } stBase
    "Expecting value" rfl rfl

theorem containsSub_mk (x L : List Char) (h : containsSub x L = true) :
    containsSub x (String.mk L).data = true := h

theorem containsSub_intercalate (sep : List Char) (parts : List (List Char))
    (x : List Char) (h : x ∈ parts) :
    containsSub x (List.intercalate sep parts) = true := by
  obtain ⟨pre, suf, hd⟩ := mem_intercalate_infix parts sep x h
  rw [hd]
  exact containsSub_sandwich x pre suf

/-- C1: (i) in every run a `reset --soft` event occurs only after a
`tagCreate` event, and the workflow never deletes a tag; (ii) the signal
handler with an in-flight backup tag denies reporting that tag; (iii) on
each of the enumerated failure paths reachable after tag creation — the
interruption checkpoint, a squash subprocess failure (of the reset or of
the commit), a validation failure — the workflow denies with a reason
containing the backup tag name, while the tag-creation event remains in
the trace. -/
theorem C1_backup_tag_discipline :
    (∀ (env : Env) (st : GitState), okOrder (mainRun env st).2.1 false = true ∧
      ∀ n, Ev.tagDelete n ∉ (mainRun env st).2.1) ∧
    (∀ t, ∃ rr, signal_handler (some t) = .deny rr ∧ containsSub t.data rr.data = true) ∧
    (∀ (env : Env) (st : GitState) (inp : HookInput) (b f r m : String),
      env.gitVersionOk = true → env.stdin = .ok inp →
      is_push_command inp.command = true → env.branchRes = some b →
      (pyStrip b.data == "main".data || pyStrip b.data == "master".data) = true →
      env.fetchRes = .ok f → env.revListRes = .ok r →
      commitsOf r ≠ [] → has_wip_commits (commitsOf r) = true →
      (commitsOf r).length ≠ 1 →
      (has_merge_conflicts env.mergeTreeRes).1 = false →
      env.interrupted1 = false → env.addFails = false → env.autoCommitFails = false →
      (generate_commit_message env.planRead env.logSubjectsRes env.diffStatRes
        env.diffFullRes (find_plan_file env.diffNamesRes).1
        ((commitsOf r).length +
          (if (has_unstaged_changes env.diff1Res env.diff2Res).1 then 1 else 0))).1 = .ok m →
      parseConfirm env.confirm1 = some true →
      env.revParseFails = false → env.tagCreateFails = false →
      (env.interrupted2 = true ∨ env.resetSoftFails = true ∨
        (env.interrupted2 = false ∧ env.resetSoftFails = false ∧
          env.commitSquashFails = true) ∨
        (env.interrupted2 = false ∧ env.resetSoftFails = false ∧
          env.commitSquashFails = false ∧
          validate_squash env.revCountRes env.tagListRes
            ("backup/pre-squash-" ++
              toString (if (has_unstaged_changes env.diff1Res env.diff2Res).1
                then st.next else st.head) ++ "-" ++ toString env.now) = false)) →
      ∃ t r', (mainRun env st).1 = .deny r' ∧
        Ev.tagCreate t ∈ (mainRun env st).2.1 ∧
        containsSub t.data r'.data = true) := by
  refine ⟨?_, ?_, ?_⟩
  · intro env st
    have h := mainBody_inv env st
    rw [mainRun_eq_body]
    exact h
  · intro t
    exact ⟨_, rfl, containsSub_str_append _ _⟩
  · intro env st inp b f r m hver hstdin hpush hbr hbrname hf hr hcne hwip hlen
      hconf hint1 hadd hac hgen hcf1 hrp htc hfail
    obtain ⟨tr', heq⟩ := mainBody_reaches_squash env st inp b f r m hver hstdin hpush hbr
      hbrname hf hr hcne hwip hlen hconf hint1 hadd hac hgen hcf1
    have hheadE : (if (has_unstaged_changes env.diff1Res env.diff2Res).1 then
        doCommit "WIP: auto-commit unstaged changes" st else st).head =
        (if (has_unstaged_changes env.diff1Res env.diff2Res).1 then st.next else st.head) := by
      by_cases hu : (has_unstaged_changes env.diff1Res env.diff2Res).1 = true
      · simp [hu, doCommit]
      · simp only [Bool.not_eq_true] at hu
        simp [hu, doCommit]
    rw [← hheadE] at hfail
    obtain ⟨t, r', hdec, hmem, hcont⟩ := stageSquash_fail_reports env _ tr' m hrp htc hfail
    rcases hss : stageSquash env (if (has_unstaged_changes env.diff1Res env.diff2Res).1 then
        doCommit "WIP: auto-commit unstaged changes" st else st) tr' m with ⟨out, TR, ST⟩
    rw [hss] at hdec hmem
    dsimp only at hdec hmem
    subst hdec
    have hmb : mainBody env st = (.dec (.deny r'), TR, ST) := by rw [heq, hss]
    have hrun := mainRun_of_dec hmb
    exact ⟨t, r', by rw [hrun], by rw [hrun]; exact hmem, hcont⟩

/-- C1 witness: a run that reaches tag creation and then fails the
`reset --soft` denies with the tag name in the reason. -/
theorem C1_backup_tag_discipline_witness :
    ∃ t r', (mainRun { envBase with resetSoftFails := true } stBase).1 = .deny r' ∧
      Ev.tagCreate t ∈ (mainRun { envBase with resetSoftFails := true } stBase).2.1 ∧
      containsSub t.data r'.data = true := by
  exact C1_backup_tag_discipline.2.2 { envBase with resetSoftFails := true } stBase
    ⟨"git push"⟩ "main" "" "a1 WIP: x\nb2 WIP: y"
    "feat: x\ny\n\n🤖 Generated with [Claude Code](https://claude.com/claude-code)\n\nCo-Authored-By: Claude Sonnet 4.5 (1M context) <noreply@anthropic.com>"
    rfl rfl (by decide) rfl (by decide) rfl rfl (by decide) (by decide) (by decide)
    (by decide) rfl rfl rfl rfl (by decide) rfl rfl (Or.inr (Or.inl rfl))

/-- C4: if the second confirmation (after squashing) is declined, the
workflow hard-resets to the backup tag and denies: the final `HEAD` equals
the `HEAD` at backup-tag-creation time (the original tip, or the
auto-commit when unstaged changes were committed), which is exactly the
commit the backup tag points at. -/
theorem C4_rollback_restores (env : Env) (st : GitState) (inp : HookInput)
    (b f r m : String)
    (hver : env.gitVersionOk = true) (hstdin : env.stdin = .ok inp)
    (hpush : is_push_command inp.command = true)
    (hbr : env.branchRes = some b)
    (hbrname : (pyStrip b.data == "main".data || pyStrip b.data == "master".data) = true)
    (hf : env.fetchRes = .ok f) (hr : env.revListRes = .ok r)
    (hcne : commitsOf r ≠ []) (hwip : has_wip_commits (commitsOf r) = true)
    (hlen : (commitsOf r).length ≠ 1)
    (hconf : (has_merge_conflicts env.mergeTreeRes).1 = false)
    (hint1 : env.interrupted1 = false)
    (hadd : env.addFails = false) (hac : env.autoCommitFails = false)
    (hgen : (generate_commit_message env.planRead env.logSubjectsRes env.diffStatRes
      env.diffFullRes (find_plan_file env.diffNamesRes).1
      ((commitsOf r).length +
        (if (has_unstaged_changes env.diff1Res env.diff2Res).1 then 1 else 0))).1 = .ok m)
    (hcf1 : parseConfirm env.confirm1 = some true)
    (hrp : env.revParseFails = false) (htc : env.tagCreateFails = false)
    (hI2 : env.interrupted2 = false) (hRS : env.resetSoftFails = false)
    (hCS : env.commitSquashFails = false)
    (hV : validate_squash env.revCountRes env.tagListRes
      ("backup/pre-squash-" ++
        toString (if (has_unstaged_changes env.diff1Res env.diff2Res).1
          then st.next else st.head) ++ "-" ++ toString env.now) = true)
    (hLS : env.logShowFails = false) (hC2 : parseConfirm env.confirm2 = some false)
    (hRH : env.resetHardFails = false) :
    (mainRun env st).1 = .deny "Squash cancelled - restored to original state" ∧
    (mainRun env st).2.2.head =
      (if (has_unstaged_changes env.diff1Res env.diff2Res).1 then st.next else st.head) ∧
    ∃ tg, Ev.tagCreate tg ∈ (mainRun env st).2.1 ∧
      Ev.resetHard tg ∈ (mainRun env st).2.1 ∧
      (mainRun env st).2.2.tags.lookup tg = some ((mainRun env st).2.2.head) := by
  obtain ⟨tr', heq⟩ := mainBody_reaches_squash env st inp b f r m hver hstdin hpush hbr
    hbrname hf hr hcne hwip hlen hconf hint1 hadd hac hgen hcf1
  have hheadE : (if (has_unstaged_changes env.diff1Res env.diff2Res).1 then
      doCommit "WIP: auto-commit unstaged changes" st else st).head =
      (if (has_unstaged_changes env.diff1Res env.diff2Res).1 then st.next else st.head) := by
    by_cases hu : (has_unstaged_changes env.diff1Res env.diff2Res).1 = true
    · simp [hu, doCommit]
    · simp only [Bool.not_eq_true] at hu
      simp [hu, doCommit]
  rw [← hheadE] at hV
  have hroll := stageSquash_rollback env _ tr' m hrp htc hI2 hRS hCS hV hLS hC2 hRH
  rcases hss : stageSquash env (if (has_unstaged_changes env.diff1Res env.diff2Res).1 then
      doCommit "WIP: auto-commit unstaged changes" st else st) tr' m with ⟨out, TR, ST⟩
  rw [hss] at hroll
  dsimp only at hroll
  obtain ⟨hdec, hhead, tg, htg1, htg2, hlook⟩ := hroll
  subst hdec
  have hmb : mainBody env st = (.dec (.deny "Squash cancelled - restored to original state"),
      TR, ST) := by rw [heq, hss]
  have hrun := mainRun_of_dec hmb
  rw [hrun]
  refine ⟨rfl, by rw [← hheadE]; exact hhead, tg, htg1, htg2, ?_⟩
  show ST.tags.lookup tg = some ST.head
  rw [hhead]
  exact hlook

/-- C4 witness: the rollback round-trip at a concrete run (two WIP commits,
clean tree, second confirmation `n`): `HEAD` is restored to the pre-squash
tip. -/
theorem C4_rollback_restores_witness :
    (mainRun envBase stBase).1 = .deny "Squash cancelled - restored to original state" ∧
    (mainRun envBase stBase).2.2.head =
      (if (has_unstaged_changes envBase.diff1Res envBase.diff2Res).1 then stBase.next
        else stBase.head) := by
  have h := C4_rollback_restores envBase stBase ⟨"git push"⟩ "main" "" "a1 WIP: x\nb2 WIP: y"
    "feat: x\ny\n\n🤖 Generated with [Claude Code](https://claude.com/claude-code)\n\nCo-Authored-By: Claude Sonnet 4.5 (1M context) <noreply@anthropic.com>"
    rfl rfl (by decide) rfl (by decide) rfl rfl (by decide) (by decide) (by decide)
    (by decide) rfl rfl rfl rfl (by decide) rfl rfl rfl rfl rfl (by decide)
    rfl (by decide) rfl
  exact ⟨h.1, h.2.1⟩

/-- C10: the count in the pre-push summary (and passed to message
synthesis) is the total number of commits ahead of the remote plus one if
unstaged changes were auto-committed; the synthesized plan-file message
embeds exactly that count in its `Squashed N WIP commits` line; and on a
list with two commits of which only one is WIP-prefixed the count is 2,
not the number of WIP commits (1). -/
theorem C10_squash_count :
    (∀ (env : Env) (st : GitState) (inp : HookInput) (b f r m : String),
      env.gitVersionOk = true → env.stdin = .ok inp →
      is_push_command inp.command = true → env.branchRes = some b →
      (pyStrip b.data == "main".data || pyStrip b.data == "master".data) = true →
      env.fetchRes = .ok f → env.revListRes = .ok r →
      commitsOf r ≠ [] → has_wip_commits (commitsOf r) = true →
      (commitsOf r).length ≠ 1 →
      (has_merge_conflicts env.mergeTreeRes).1 = false →
      env.interrupted1 = false → env.addFails = false → env.autoCommitFails = false →
      (generate_commit_message env.planRead env.logSubjectsRes env.diffStatRes
        env.diffFullRes (find_plan_file env.diffNamesRes).1
        ((commitsOf r).length +
          (if (has_unstaged_changes env.diff1Res env.diff2Res).1 then 1 else 0))).1 = .ok m →
      Ev.summary ((commitsOf r).length +
          (if (has_unstaged_changes env.diff1Res env.diff2Res).1 then 1 else 0)) m
        ∈ (mainRun env st).2.1) ∧
    (∀ (content : String) (ls : Option String) (a2 b2 : RunRes) (p : String) (n : Nat),
      ∃ m, (generate_commit_message (some content) ls a2 b2 (some p) n).1 = .ok m ∧
        containsSub ("Squashed " ++ toString n ++ " WIP commits").data m.data = true) ∧
    ((commitsOf "a1 WIP: x\nb2 fix y").length = 2 ∧
      (commitsOf "a1 WIP: x\nb2 fix y").countP wipEntry = 1) := by
  refine ⟨?_, ?_, by decide, by decide⟩
  · intro env st inp b f r m hver hstdin hpush hbr hbrname hf hr hcne hwip hlen
      hconf hint1 hadd hac hgen
    rw [mainRun_eq_body]
    exact mainBody_summary env st inp b f r m hver hstdin hpush hbr hbrname hf hr hcne
      hwip hlen hconf hint1 hadd hac hgen
  · intro content ls a2 b2 p n
    unfold generate_commit_message
    dsimp only
    refine ⟨_, rfl, ?_⟩
    have hline : ("Squashed " ++ toString n ++ " WIP commits").data
        = "Squashed ".data ++ (toString n).data ++ " WIP commits".data := by
      simp [String.data_append]
    rw [hline]
    apply containsSub_mk
    apply containsSub_intercalate
    simp [List.mem_append]

/-- C10 witness: at a concrete run with two commits and a clean tree, the
summary event carries count 2. -/
theorem C10_squash_count_witness :
    Ev.summary 2
        "feat: x\ny\n\n🤖 Generated with [Claude Code](https://claude.com/claude-code)\n\nCo-Authored-By: Claude Sonnet 4.5 (1M context) <noreply@anthropic.com>"
      ∈ (mainRun envBase stBase).2.1 := by
  have h := C10_squash_count.1 envBase stBase ⟨"git push"⟩ "main" "" "a1 WIP: x\nb2 WIP: y"
    "feat: x\ny\n\n🤖 Generated with [Claude Code](https://claude.com/claude-code)\n\nCo-Authored-By: Claude Sonnet 4.5 (1M context) <noreply@anthropic.com>"
    rfl rfl (by decide) rfl (by decide) rfl rfl (by decide) (by decide) (by decide)
    (by decide) rfl rfl rfl rfl
  simpa using h

end PushHooks
